import Mathlib

/-!
Verification of the TopoMind agent core: memory lifecycle, tool execution
kernel and planning/replanning protocol, shallowly embedded from the
Python sources under src/topomind.

Conventions of the embedding:
* Python dictionaries are association lists preserving insertion order
  (Python dicts are ordered); updating an existing key keeps its position,
  as in CPython.
* Python integers are Lean Int, turn counters likewise.
* Python floats are modelled as rationals; the single non-rational
  operation in scope (the float power `x ** 0.5` in MemoryDecay) is
  threaded through as an explicit function parameter documented at its
  use site.
* Fallible Python code (raise) is modelled with Except.
-/

/-- Model of a Python runtime value as it flows through the agent
(observation payloads, tool arguments, tool outputs, persisted state).
The `res` constructor inlines the fields of the frozen `ToolResult`
dataclass (src/topomind/models/tool_result.py) because tool results are
stored as observation payloads in memory nodes. -/
inductive PyVal where
  | str (s : String)
  | int (n : Int)
  | bool (b : Bool)
  | float (q : ℚ)
  | list (xs : List PyVal)
  | dict (entries : List (PyVal × PyVal))
  | tup (xs : List PyVal)
  | none
  | res (tool_name tool_version status : String) (output : PyVal)
        (error : Option String) (latency_ms : Int) (stability_signal : ℚ)
  deriving Repr

namespace PyVal

/-- Numeric value of a Python number: Python compares int, bool and float
across types by numeric value (True == 1, 1.0 == 1). -/
def numVal? : PyVal → Option ℚ
  | .int n => some (n : ℚ)
  | .bool b => some (if b then 1 else 0)
  | .float q => some q
  | _ => Option.none

mutual

/-- Python equality (the == operator) on the modelled values: numbers
compare by numeric value across int/bool/float; containers compare
elementwise. Dict comparison is modelled pairwise in entry order, which
agrees with Python for dicts built in the same key order (the only dict
comparisons arising in this development). -/
def pyEq : PyVal → PyVal → Bool
  | a, b =>
    match numVal? a, numVal? b with
    | some x, some y => x = y
    | _, _ =>
      match a, b with
      | .str s, .str t => s = t
      | .list xs, .list ys => pyEqList xs ys
      | .tup xs, .tup ys => pyEqList xs ys
      | .dict xs, .dict ys => pyEqPairs xs ys
      | .none, .none => true
      | .res n v st out err lat sig, .res n2 v2 st2 out2 err2 lat2 sig2 =>
        n = n2 && v = v2 && st = st2 && pyEq out out2 && err = err2
          && lat = lat2 && sig = sig2
      | _, _ => false

def pyEqList : List PyVal → List PyVal → Bool
  | [], [] => true
  | x :: xs, y :: ys => pyEq x y && pyEqList xs ys
  | _, _ => false

def pyEqPairs : List (PyVal × PyVal) → List (PyVal × PyVal) → Bool
  | [], [] => true
  | (k, v) :: xs, (k2, v2) :: ys => pyEq k k2 && pyEq v v2 && pyEqPairs xs ys
  | _, _ => false

end

mutual

/-- Python hashability: lists and dicts are unhashable; tuples and frozen
dataclasses are hashable when their components are. -/
def hashable : PyVal → Bool
  | .list _ => false
  | .dict _ => false
  | .tup xs => hashableList xs
  | .res _ _ _ out _ _ _ => hashable out
  | _ => true

/-- Hashability of every element of a list (for tuple values). -/
def hashableList : List PyVal → Bool
  | [] => true
  | x :: xs => hashable x && hashableList xs

end

/-- isinstance(v, str) -/
def isStr : PyVal → Bool
  | .str _ => true
  | _ => false

/-- isinstance(v, int): in Python bool is a subclass of int, so booleans
satisfy this check. -/
def isInstInt : PyVal → Bool
  | .int _ => true
  | .bool _ => true
  | _ => false

/-- isinstance(v, bool) -/
def isBool : PyVal → Bool
  | .bool _ => true
  | _ => false

/-- isinstance(v, float) -/
def isFloat : PyVal → Bool
  | .float _ => true
  | _ => false

/-- isinstance(v, dict) -/
def isDict : PyVal → Bool
  | .dict _ => true
  | _ => false

/-- isinstance(v, list) -/
def isList : PyVal → Bool
  | .list _ => true
  | _ => false

/-- isinstance(v, (int, float)): bool passes, being an int subclass. -/
def isNumber : PyVal → Bool
  | .int _ => true
  | .bool _ => true
  | .float _ => true
  | _ => false

/-- Integer value of a Python int (bools count, with True = 1), used when
code that checked isinstance(v, int) stores the value as a count. -/
def toInt? : PyVal → Option Int
  | .int n => some n
  | .bool b => some (if b then 1 else 0)
  | _ => Option.none

/-- d.get(key, default) on a Python dict, comparing keys with ==. -/
def dictGet (entries : List (PyVal × PyVal)) (key default : PyVal) : PyVal :=
  match entries.find? (fun kv => pyEq kv.1 key) with
  | some kv => kv.2
  | Option.none => default

/-- key in d on a Python dict. -/
def dictHasKey (entries : List (PyVal × PyVal)) (key : PyVal) : Bool :=
  entries.any (fun kv => pyEq kv.1 key)

/-- The items of a dict value (callers guard with isDict first, as the
source guards with isinstance before iterating). -/
def dictEntries : PyVal → List (PyVal × PyVal)
  | .dict entries => entries
  | _ => []

/-- Total order used to model Python < between values of the same type in
sort keys. Strings compare lexicographically and numbers numerically, as
in Python; distinct constructors are ranked by a fixed numbering (Python
would raise TypeError on such comparisons, which do not occur in the
repository, where sorted entity values are homogeneous). -/
def rank : PyVal → Nat
  | .str _ => 0
  | .int _ => 1
  | .bool _ => 2
  | .float _ => 3
  | .list _ => 4
  | .dict _ => 5
  | .tup _ => 6
  | .none => 7
  | .res _ _ _ _ _ _ _ => 8

def leb (a b : PyVal) : Bool :=
  match numVal? a, numVal? b with
  | some x, some y => x ≤ y
  | _, _ =>
    match a, b with
    | .str s, .str t => s ≤ t
    | _, _ => rank a ≤ rank b

end PyVal

/-! ## Ordered association lists with string keys

Python dict with string keys: insertion order is preserved, updating an
existing key keeps its position. -/

namespace PyDict

/-- Lookup (first match; keys are unique in lists built by set). -/
def get? {α : Type} : List (String × α) → String → Option α
  | [], _ => Option.none
  | (k0, v0) :: rest, k => if k0 = k then some v0 else get? rest k

/-- d[k] = v : update in place or append, as a Python dict does. -/
def set {α : Type} (k : String) (v : α) : List (String × α) → List (String × α)
  | [] => [(k, v)]
  | (k0, v0) :: rest =>
    if k0 = k then (k, v) :: rest else (k0, v0) :: set k v rest

/-- d.pop(k, None) : remove the entry for k if present. -/
def erase {α : Type} (k : String) : List (String × α) → List (String × α)
  | [] => []
  | (k0, v0) :: rest =>
    if k0 = k then rest else (k0, v0) :: erase k rest

end PyDict

/-- Insert x after every element y with le y x: one step of a stable
insertion sort. -/
def stableInsert {α : Type} (le : α → α → Bool) : List α → α → List α
  | [], x => [x]
  | y :: ys, x => if le y x then y :: stableInsert le ys x else x :: y :: ys

/-- Python's stable sort (list.sort, sorted): modelled as insertion sort
processing elements left to right, placing each after existing entries
that compare less-or-equal; for a total preorder this agrees with every
stable sort, and it is stable, as Python's sort is. -/
def pySorted {α : Type} (le : α → α → Bool) (l : List α) : List α :=
  l.foldl (stableInsert le) []


/-! ## Memory graph (src/topomind/memory/nodes.py, edges.py, graph.py) -/

/-- Immutable memory node (src/topomind/memory/nodes.py). -/
structure Node where
  id : String
  type : String
  value : PyVal
  turn_created : Int
  deriving Repr

/-- Directed immutable edge (src/topomind/memory/edges.py). -/
structure Edge where
  source : String
  target : String
  relation : String
  deriving Repr, DecidableEq

/-- MemoryGraph state (src/topomind/memory/graph.py): a turn counter, an
insertion-ordered id-to-node mapping and an ordered edge list. The
field next_id models the uuid4 generator of add_node as a counter
producing fresh opaque ids. -/
structure MemoryGraph where
  nodes : List (String × Node)
  edges : List Edge
  turn : Int
  next_id : Nat
  deriving Repr

namespace MemoryGraph

/-- The empty graph built by MemoryGraph.__init__. -/
def init : MemoryGraph := { nodes := [], edges := [], turn := 0, next_id := 0 }

/-- new_turn: advance the logical conversation turn. -/
def new_turn (g : MemoryGraph) : MemoryGraph := { g with turn := g.turn + 1 }

/-- current_turn property. -/
def current_turn (g : MemoryGraph) : Int := g.turn

/-- Fresh node id, modelling str(uuid.uuid4()) as an opaque string that
is distinct for every value of the generator counter. -/
def mkId (j : Nat) : String := String.mk (List.replicate (j + 1) 'u')

/-- add_node: create a node stamped with the current turn and return its
id together with the new graph. -/
def add_node (g : MemoryGraph) (type_ : String) (value : PyVal) :
    String × MemoryGraph :=
  let node_id := mkId g.next_id
  (node_id,
   { g with
      nodes := g.nodes ++ [(node_id, Node.mk node_id type_ value g.turn)]
      next_id := g.next_id + 1 })

/-- get_node: dictionary access self._nodes[node_id]; none models the
KeyError raised on a missing id. -/
def get_node? (g : MemoryGraph) (node_id : String) : Option Node :=
  PyDict.get? g.nodes node_id

/-- get_nodes_by_type: nodes in insertion order with the given type. -/
def get_nodes_by_type (g : MemoryGraph) (type_ : String) : List Node :=
  (g.nodes.map Prod.snd).filter (fun n => n.type = type_)

/-- nodes(): values in insertion order. -/
def nodeList (g : MemoryGraph) : List Node := g.nodes.map Prod.snd

/-- add_edge: append a directed relationship. -/
def add_edge (g : MemoryGraph) (source target relation : String) : MemoryGraph :=
  { g with edges := g.edges ++ [Edge.mk source target relation] }

/-- Loop body of remove_nodes: node = self._nodes.pop(nid, None),
appending the node to the removed list when present. -/
def popOne (acc : List (String × Node) × List Node) (nid : String) :
    List (String × Node) × List Node :=
  match PyDict.get? acc.1 nid with
  | some node => (PyDict.erase nid acc.1, acc.2 ++ [node])
  | Option.none => acc

/-- remove_nodes: pop each named node, then drop every edge whose source
or target is in the requested id list, returning the new graph together
with the removed nodes and removed edges (for audit). -/
def remove_nodes (g : MemoryGraph) (node_ids : List String) :
    MemoryGraph × List Node × List Edge :=
  let popped := node_ids.foldl popOne (g.nodes, [])
  let removed_edges :=
    g.edges.filter (fun e => node_ids.contains e.source || node_ids.contains e.target)
  let remaining_edges :=
    g.edges.filter (fun e => !(node_ids.contains e.source || node_ids.contains e.target))
  ({ g with nodes := popped.1, edges := remaining_edges }, popped.2, removed_edges)

/-- load_state: atomic full replacement used by persistence restore. -/
def load_state (g : MemoryGraph) (turn : Int) (nodes : List (String × Node))
    (edges : List Edge) : MemoryGraph :=
  { g with turn := turn, nodes := nodes, edges := edges }

end MemoryGraph

/-! ## Persistence scorer (src/topomind/memory/persistence_score.py) -/

/-- PersistenceScorer state: reinforcement counts (a defaultdict int) and
last-seen turns per node id. -/
structure PersistenceScorer where
  scores : List (String × Int)
  last_seen_map : List (String × Int)
  deriving Repr

namespace PersistenceScorer

def init : PersistenceScorer := { scores := [], last_seen_map := [] }

/-- register_occurrence: increment the count; stamp last-seen only when a
current turn is supplied (the parameter defaults to None in the source). -/
def register_occurrence (sc : PersistenceScorer) (node_id : String)
    (current_turn : Option Int) : PersistenceScorer :=
  let prev := (PyDict.get? sc.scores node_id).getD 0
  let scores := PyDict.set node_id (prev + 1) sc.scores
  match current_turn with
  | some t => { scores := scores, last_seen_map := PyDict.set node_id t sc.last_seen_map }
  | Option.none => { sc with scores := scores }

/-- score: defaults to 0 for unknown ids. -/
def score (sc : PersistenceScorer) (node_id : String) : Int :=
  (PyDict.get? sc.scores node_id).getD 0

/-- last_seen: defaults to -1 for unknown ids. -/
def last_seen (sc : PersistenceScorer) (node_id : String) : Int :=
  (PyDict.get? sc.last_seen_map node_id).getD (-1)

/-- remove: delete persistence entries for deleted nodes. -/
def remove (sc : PersistenceScorer) (node_ids : List String) : PersistenceScorer :=
  node_ids.foldl
    (fun acc nid =>
      { scores := PyDict.erase nid acc.scores
        last_seen_map := PyDict.erase nid acc.last_seen_map })
    sc

/-- One defensive loading pass of load: walk the persisted entries in
order; continue past any entry whose key is not a string, whose value is
not an int (bools being ints in Python), or whose value is negative;
otherwise self._map[k] = v. -/
def loadEntries : List (PyVal × PyVal) → List (String × Int) → List (String × Int)
  | [], acc => acc
  | kv :: rest, acc =>
    match kv.1, PyVal.toInt? kv.2 with
    | .str k, some v =>
      if v < 0 then loadEntries rest acc else loadEntries rest (PyDict.set k v acc)
    | _, _ => loadEntries rest acc

/-- load: defensive restore. Raises (error) unless the data is a dict
whose scores and last_seen members are dicts; silently skips entries
whose key is not a string or whose value is not a non-negative int
(booleans being ints in Python), loading all the others. -/
def load (sc : PersistenceScorer) (data : PyVal) : Except String PersistenceScorer :=
  match data with
  | .dict entries =>
    let scoresV := PyVal.dictGet entries (.str "scores") (.dict [])
    let lastSeenV := PyVal.dictGet entries (.str "last_seen") (.dict [])
    if !scoresV.isDict || !lastSeenV.isDict then
      .error "Invalid persistence structure."
    else
      .ok { scores := loadEntries scoresV.dictEntries sc.scores
            last_seen_map := loadEntries lastSeenV.dictEntries sc.last_seen_map }
  | _ => .error "Persistence data must be dictionary."

end PersistenceScorer

/-! ## Memory decay (src/topomind/memory/decay.py) -/

namespace MemoryDecay

/-- compute_importance: sqrt-damped reinforcement minus a linear age
penalty. The age is current_turn - last_seen when the node was ever
stamped, else current_turn - turn_created. The parameter sqrtFn models
the Python float power persistence ** 0.5 (kept abstract because float
sqrt is irrational in general); none models the KeyError of the node
lookup on an absent id, which callers never trigger. -/
def compute_importance (sqrtFn : ℚ → ℚ) (g : MemoryGraph)
    (sc : PersistenceScorer) (node_id : String) : Option ℚ :=
  match g.get_node? node_id with
  | Option.none => Option.none
  | some node =>
    let current_turn := g.current_turn
    let ls := sc.last_seen node_id
    let age : Int :=
      if ls ≥ 0 then current_turn - ls else current_turn - node.turn_created
    let persistence := sc.score node_id
    let reinforcement_score := sqrtFn (persistence : ℚ)
    let decay_penalty : ℚ := (age : ℚ) * (15 / 100)
    some (reinforcement_score - decay_penalty)

end MemoryDecay

/-! ## Memory forgetting (src/topomind/memory/forgetting.py) -/

namespace MemoryForgetting

/-- Node types that are never auto-forgotten. -/
def PROTECTED_TYPES : List String := ["goal", "constraint", "signal"]

/-- Safety cap on nodes removed per pruning cycle. -/
def MAX_PRUNE_BATCH : Nat := 25

/-- The to_remove list of prune: unprotected nodes whose importance is
below the threshold, paired with their importance. -/
def pruneCandidates (sqrtFn : ℚ → ℚ) (g : MemoryGraph) (sc : PersistenceScorer)
    (threshold : ℚ) : List (String × ℚ) :=
  g.nodeList.filterMap (fun node =>
    if PROTECTED_TYPES.contains node.type then Option.none
    else
      match MemoryDecay.compute_importance sqrtFn g sc node.id with
      | some importance =>
        if importance < threshold then some (node.id, importance) else Option.none
      | Option.none => Option.none)

/-- prune: collect unprotected nodes with importance below the threshold,
sort them ascending by importance, cap the batch, and remove them from
the graph. The scorer is only read (through MemoryDecay); prune performs
no scorer cleanup. -/
def prune (sqrtFn : ℚ → ℚ) (g : MemoryGraph) (sc : PersistenceScorer)
    (threshold : ℚ) : MemoryGraph × List Node × List Edge :=
  if (pruneCandidates sqrtFn g sc threshold).isEmpty then (g, [], [])
  else
    g.remove_nodes
      (((pySorted (fun a b => a.2 ≤ b.2)
          (pruneCandidates sqrtFn g sc threshold)).take MAX_PRUNE_BATCH).map
        Prod.fst)

end MemoryForgetting

/-! ## Memory deduplicator (src/topomind/memory/dedup.py) -/

namespace MemoryDeduplicator

/-- find_existing: linear scan for an exact (type, value) match, with
Python == on the value. -/
def find_existing (g : MemoryGraph) (type_ : String) (value : PyVal) : Option String :=
  match g.nodeList.find? (fun node => node.type = type_ && PyVal.pyEq node.value value) with
  | some node => some node.id
  | Option.none => Option.none

end MemoryDeduplicator

/-! ## Observations and the memory updater
(src/topomind/models/observation.py, src/topomind/memory/updater.py) -/

/-- Observation: normalized perception unit; timestamp and trace id are
omitted as they never reach memory contents. -/
structure Observation where
  source : String
  type : String
  payload : PyVal
  deriving Repr

/-- The mutable memory-side state owned by one MemoryUpdater: the graph
and the persistence scorer it wraps. -/
structure MemorySystem where
  graph : MemoryGraph
  scorer : PersistenceScorer
  deriving Repr

namespace MemoryUpdater

def PRUNE_INTERVAL : Int := 5
def PRUNE_THRESHOLD : ℚ := -5

/-- The pruning cycle as invoked from the updater: MemoryForgetting
mutates only the graph, so the scorer passes through unchanged. -/
def pruneCycle (sqrtFn : ℚ → ℚ) (s : MemorySystem) (threshold : ℚ) :
    MemorySystem × List Node × List Edge :=
  let r := MemoryForgetting.prune sqrtFn s.graph s.scorer threshold
  ({ s with graph := r.1 }, r.2.1, r.2.2)

/-- update_from_observation: dedup, create on miss, register an
occurrence (without a turn argument), and run the forgetting cycle every
PRUNE_INTERVAL turns. -/
def update_from_observation (sqrtFn : ℚ → ℚ) (s : MemorySystem)
    (obs : Observation) : MemorySystem :=
  let existing := MemoryDeduplicator.find_existing s.graph obs.type obs.payload
  let step : String × MemoryGraph :=
    match existing with
    | some nid => (nid, s.graph)
    | Option.none => s.graph.add_node obs.type obs.payload
  let node_id := step.1
  let g1 := step.2
  let sc1 := s.scorer.register_occurrence node_id Option.none
  let s1 : MemorySystem := { graph := g1, scorer := sc1 }
  if g1.current_turn % PRUNE_INTERVAL = 0 then
    (pruneCycle sqrtFn s1 PRUNE_THRESHOLD).1
  else s1

end MemoryUpdater

/-! ## Persistence analyzer (src/topomind/stability/persistence.py) and
stability signals (src/topomind/stability/signals.py) -/

namespace PersistenceAnalyzer

/-- One Counter update: bump the count of an existing key (Python ==) or
append a new key with count 1; collections.Counter preserves first
occurrence order. -/
def addCount : List (PyVal × Int) → PyVal → List (PyVal × Int)
  | [], v => [(v, 1)]
  | (k, c) :: rest, v =>
    if PyVal.pyEq k v then (k, c + 1) :: rest else (k, c) :: addCount rest v

/-- collections.Counter(values). -/
def counter (values : List PyVal) : List (PyVal × Int) :=
  values.foldl addCount []

/-- Comparison for sorted(counts.items(), key = (-count, value)):
lexicographic on the key tuple, so higher counts first and ties broken by
ascending value. -/
def sortKeyLe (a b : PyVal × Int) : Bool :=
  if a.2 = b.2 then PyVal.leb a.1 b.1 else b.2 < a.2

/-- The values list of persistent_entities: the values of sufficiently
old, hashable, non-None entity nodes, in node insertion order. -/
def entityValues (minimum_turn_age : Int) (g : MemoryGraph) : List PyVal :=
  (g.get_nodes_by_type "entity").filterMap (fun node =>
    match node.value with
    | PyVal.none => Option.none
    | v =>
      if !v.hashable then Option.none
      else if g.current_turn - node.turn_created < minimum_turn_age then Option.none
      else some v)

/-- Body of persistent_entities after the threshold guard: collect the
values of sufficiently old, hashable, non-None entity nodes, count them,
sort deterministically and keep those meeting the threshold. -/
def persistentEntitiesCore (threshold minimum_turn_age : Int)
    (g : MemoryGraph) : List PyVal :=
  if (entityValues minimum_turn_age g).isEmpty then []
  else
    ((pySorted sortKeyLe (counter (entityValues minimum_turn_age g))).filter
        (fun x => threshold ≤ x.2)).map Prod.fst

/-- persistent_entities with its ValueError guard on the threshold. -/
def persistent_entities (g : MemoryGraph) (threshold minimum_turn_age : Int) :
    Except String (List PyVal) :=
  if threshold < 1 then .error "threshold must be >= 1"
  else .ok (persistentEntitiesCore threshold minimum_turn_age g)

end PersistenceAnalyzer

/-- The planner-facing signal record built by StabilitySignals.extract. -/
structure Signals where
  stable_entities : List PyVal
  memory_size : Nat
  memory_pressure : String
  current_turn : Int
  deriving Repr

namespace StabilitySignals

/-- extract: persistent entities at the default thresholds (2, 1), the
memory size, a pressure heuristic and the current turn. -/
def extract (g : MemoryGraph) : Signals :=
  let stable_entities := PersistenceAnalyzer.persistentEntitiesCore 2 1 g
  let memory_size := g.nodeList.length
  let memory_pressure :=
    if memory_size > 200 then "high"
    else if memory_size > 100 then "medium"
    else "low"
  { stable_entities := stable_entities
    memory_size := memory_size
    memory_pressure := memory_pressure
    current_turn := g.current_turn }

end StabilitySignals

/-! ## Operation sequences against one memory system

Models any client of MemoryUpdater that advances turns and feeds
observations through update_from_observation (the sole ingestion path). -/

inductive MemOp where
  | newTurn
  | observe (obs : Observation)

/-- Apply one operation to the memory system. -/
def applyMemOp (sqrtFn : ℚ → ℚ) (s : MemorySystem) : MemOp → MemorySystem
  | .newTurn => { s with graph := s.graph.new_turn }
  | .observe obs => MemoryUpdater.update_from_observation sqrtFn s obs

/-- The fresh memory system owned by a newly constructed MemoryUpdater. -/
def initMemorySystem : MemorySystem :=
  { graph := MemoryGraph.init, scorer := PersistenceScorer.init }

/-- Run a sequence of operations from the fresh system. -/
def runMemOps (sqrtFn : ℚ → ℚ) (ops : List MemOp) : MemorySystem :=
  ops.foldl (applyMemOp sqrtFn) initMemorySystem

/-! ## Tool reliability tracker (src/topomind/learning/tool_reliability.py) -/

/-- Per-tool floating accumulators (success, fail). The last_update map
of the source exists only to derive the decay factor from elapsed
wall-clock time, which enters the embedding as the explicit
decay_factor argument of record. -/
structure ToolReliability where
  stats : List (String × ℚ × ℚ)
  deriving Repr

namespace ToolReliability

/-- Per-update decay base (applied as DECAY ** elapsed_seconds). -/
def DECAY : ℚ := 98 / 100

/-- Minimum sample count before full trust. -/
def MIN_SAMPLES : ℚ := 5

def init : ToolReliability := { stats := [] }

/-- record: initialize absent stats to (0, 0), decay both accumulators
by decay_factor = DECAY ** (now - last_update), then add 1 to the
relevant accumulator. -/
def record (tr : ToolReliability) (decay_factor : ℚ) (tool_name : String)
    (success : Bool) : ToolReliability :=
  let s := (PyDict.get? tr.stats tool_name).getD (0, 0)
  let s1 : ℚ × ℚ := (s.1 * decay_factor, s.2 * decay_factor)
  let s2 : ℚ × ℚ := if success then (s1.1 + 1, s1.2) else (s1.1, s1.2 + 1)
  { stats := PyDict.set tool_name s2 tr.stats }

/-- score: neutral 0.5 with no stats; below MIN_SAMPLES, shrink the raw
success share linearly toward 0.5; otherwise the raw share. -/
def score (tr : ToolReliability) (tool_name : String) : ℚ :=
  match PyDict.get? tr.stats tool_name with
  | Option.none => 1 / 2
  | some s =>
    let total := s.1 + s.2
    if total < MIN_SAMPLES then
      let base := if 0 < total then s.1 / total else 1 / 2
      1 / 2 + (base - 1 / 2) * (total / MIN_SAMPLES)
    else s.1 / total

/-- volatility: 4 p (1 - p) on the raw success share. -/
def volatility (tr : ToolReliability) (tool_name : String) : ℚ :=
  match PyDict.get? tr.stats tool_name with
  | Option.none => 0
  | some s =>
    let total := s.1 + s.2
    if total = 0 then 0
    else
      let p := s.1 / total
      4 * p * (1 - p)

end ToolReliability

/-! ## Argument validator (src/topomind/tools/validator.py)

Tool schemas in the repository map field names to string type specs, so
the isinstance(expected, type) branch of _matches_type is never taken;
schemas are embedded as string-to-string mappings. Arguments arrive as a
dictionary with string keys (the isinstance(args, dict) guard of
validate). Validation errors carry the offending fields, mirroring the
interpolated messages of ArgumentValidationError. -/

/-- Trailing-question-mark strip: expected_type.rstrip of the optional
marker. -/
def rstripOpt (s : String) : String :=
  String.mk (s.data.reverse.dropWhile (fun c => c = '?')).reverse

namespace ArgumentValidator

inductive Err where
  | missing (fields : List String)
  | unknown (fields : List String)
  | typeMismatch (field expected : String)
  deriving Repr, DecidableEq

/-- _string_type_match: primitive tags map to isinstance checks; for the
int tag isinstance(value, int) also accepts booleans (bool subclasses
int in Python); unknown specs are allowed. -/
def stringTypeMatch (expected : String) (value : PyVal) : Bool :=
  let e := expected.toLower
  if e = "string" then value.isStr
  else if e = "int" then value.isInstInt
  else if e = "float" then value.isFloat
  else if e = "bool" then value.isBool
  else if e = "dict" then value.isDict
  else if e = "list" then value.isList
  else if e = "list[number]" then
    match value with
    | .list xs => xs.all PyVal.isNumber
    | _ => false
  else if e = "list[string]" then
    match value with
    | .list xs => xs.all PyVal.isStr
    | _ => false
  else true

/-- _check_required: required fields are those without a trailing
optional marker. -/
def missingOf (schema : List (String × String)) (args : List (String × PyVal)) :
    List String :=
  (schema.filter (fun ks =>
    !(ks.2.endsWith "?") && !(args.any (fun kv => kv.1 = ks.1)))).map Prod.fst

/-- _check_unknown: arguments not declared in the schema. -/
def extraOf (schema : List (String × String)) (args : List (String × PyVal)) :
    List String :=
  ((args.map Prod.fst).filter (fun k => !(schema.any (fun ks => ks.1 = k))))

/-- _check_types: first schema field whose supplied value fails its
cleaned type spec (the source raises inside the loop). -/
def firstTypeErr (schema : List (String × String)) (args : List (String × PyVal)) :
    Option (String × String) :=
  schema.findSome? (fun ks =>
    match PyDict.get? args ks.1 with
    | Option.none => Option.none
    | some value =>
      let clean := rstripOpt ks.2
      if stringTypeMatch clean value then Option.none else some (ks.1, clean))

/-- validate: required, then unknown, then per-field types. -/
def validate (schema : List (String × String)) (args : List (String × PyVal)) :
    Except Err (List (String × PyVal)) :=
  let missing := missingOf schema args
  if !missing.isEmpty then .error (.missing missing)
  else
    let extra := extraOf schema args
    if !extra.isEmpty then .error (.unknown extra)
    else
      match firstTypeErr schema args with
      | some ke => .error (.typeMismatch ke.1 ke.2)
      | Option.none => .ok args

end ArgumentValidator

/-! ## Output validator (src/topomind/tools/output_validator.py) -/

namespace OutputValidator

inductive Err where
  | notDict
  | missing (fields : List String)
  | unknown (fields : List PyVal)
  | typeMismatch (field expected : String)
  | badSpec (spec : String)
  deriving Repr

/-- _string_type_match: as the argument-side match, except that the int
tag explicitly rejects booleans, the float tag accepts ints (and hence
bools), list[number] rejects boolean elements, and an unknown spec is a
hard error. -/
def stringTypeMatch (expected : String) (value : PyVal) : Except Err Bool :=
  let e := expected.toLower
  if e = "string" then .ok value.isStr
  else if e = "int" then .ok (value.isInstInt && !value.isBool)
  else if e = "float" then .ok (value.isFloat || value.isInstInt)
  else if e = "bool" then .ok value.isBool
  else if e = "dict" then .ok value.isDict
  else if e = "list" then .ok value.isList
  else if e = "list[number]" then
    match value with
    | .list xs => .ok (xs.all (fun v => v.isNumber && !v.isBool))
    | _ => .ok false
  else if e = "list[string]" then
    match value with
    | .list xs => .ok (xs.all PyVal.isStr)
    | _ => .ok false
  else .error (.badSpec expected)

/-- _check_required: every declared output field is mandatory. -/
def missingOf (schema : List (String × String))
    (entries : List (PyVal × PyVal)) : List String :=
  (schema.filter (fun ks => !PyVal.dictHasKey entries (.str ks.1))).map Prod.fst

/-- _check_unknown: output keys not declared in the schema. -/
def extraOf (schema : List (String × String))
    (entries : List (PyVal × PyVal)) : List PyVal :=
  (entries.map Prod.fst).filter (fun k =>
    !(schema.any (fun ks => PyVal.pyEq k (.str ks.1))))

/-- _check_types over the schema in order; output[key] is present here
because validate checks required fields first. -/
def typesCheck (entries : List (PyVal × PyVal)) :
    List (String × String) → Except Err Unit
  | [] => .ok ()
  | (key, spec) :: rest =>
    let value := PyVal.dictGet entries (.str key) .none
    match stringTypeMatch spec value with
    | .error e => .error e
    | .ok true => typesCheck entries rest
    | .ok false => .error (.typeMismatch key spec)

/-- validate: reject non-dict output, then required, unknown and types. -/
def validate (schema : List (String × String)) (output : PyVal) :
    Except Err PyVal :=
  match output with
  | .dict entries =>
    let missing := missingOf schema entries
    if !missing.isEmpty then .error (.missing missing)
    else
      let extra := extraOf schema entries
      if !extra.isEmpty then .error (.unknown extra)
      else
        match typesCheck entries schema with
        | .error e => .error e
        | .ok _ => .ok output
  | _ => .error .notDict

end OutputValidator

/-! ## Tool call / tool result (src/topomind/models/tool_call.py,
tool_result.py) -/

/-- Immutable planner-to-executor intent packet. -/
structure ToolCall where
  tool_name : String
  arguments : List (String × PyVal)
  id : String
  confidence : ℚ
  reason : String
  deriving Repr

/-- Immutable record of one tool execution. -/
structure ToolResult where
  tool_name : String
  tool_version : String
  status : String
  output : PyVal
  error : Option String
  latency_ms : Int
  stability_signal : ℚ
  deriving Repr

/-- The value a ToolResult contributes when stored as an observation
payload in memory. -/
def ToolResult.toPyVal (r : ToolResult) : PyVal :=
  .res r.tool_name r.tool_version r.status r.output r.error r.latency_ms
    r.stability_signal

/-! ## Plan model (src/topomind/planner/plan_model.py) -/

/-- A single reasoning step: a ToolCall with reasoning metadata. -/
structure PlanStep where
  action : ToolCall
  reasoning : String
  confidence : ℚ
  deriving Repr

/-- Structured planner output: an ordered sequence of steps. -/
structure Plan where
  steps : List PlanStep
  goal : Option String
  deriving Repr

namespace Plan

def is_empty (p : Plan) : Bool := p.steps.isEmpty

def first_step_or_none (p : Plan) : Option PlanStep := p.steps.head?

/-- Aggregate plan confidence: 0 when empty, else the minimum step
confidence. -/
def confidence (p : Plan) : ℚ :=
  match p.steps.map PlanStep.confidence with
  | [] => 0
  | c :: cs => cs.foldl min c

end Plan

/-! ## Observation builder (src/topomind/memory/observation_builder.py)

The SemanticExtractor posts the answer text to an external LLM and
parses its JSON reply; that reply is modelled as an oracle value with
the three lists the builder consumes (relations already projected to
their source/relation/target triple). -/

/-- Parsed reply of the semantic extraction LLM call. -/
structure SemanticKnowledge where
  concepts : List PyVal
  facts : List PyVal
  relations : List (PyVal × PyVal × PyVal)

/-- from_reason_result: concepts, then facts, then relation triples, each
wrapped as an inference observation. -/
def ObservationBuilder.from_reason_result (sem : SemanticKnowledge) :
    List Observation :=
  (sem.concepts.map (fun c =>
      { source := "inference", type := "concept", payload := c }))
  ++ (sem.facts.map (fun f =>
      { source := "inference", type := "fact", payload := f }))
  ++ (sem.relations.map (fun r =>
      { source := "inference", type := "relation",
        payload := PyVal.tup [r.1, r.2.1, r.2.2] }))

/-! ## Agent state (src/topomind/agent/state.py) -/

/-- Short-term per-session state. The write-only plan bookkeeping fields
(last_plan, last_tool_call) are omitted: nothing in the loop reads them,
and core.py line 189 records the tool name string where a ToolCall is
declared. -/
structure AgentState where
  turn_count : Int
  last_user_input : Option String
  last_result : Option ToolResult
  recent_results : List ToolResult
  max_recent : Nat
  deriving Repr

namespace AgentState

def init : AgentState :=
  { turn_count := 0, last_user_input := Option.none,
    last_result := Option.none, recent_results := [], max_recent := 5 }

/-- new_turn: advance the session turn and store the latest input. -/
def new_turn (st : AgentState) (user_input : String) : AgentState :=
  { st with turn_count := st.turn_count + 1, last_user_input := some user_input }

/-- record_execution: store the result and maintain the bounded ring. -/
def record_execution (st : AgentState) (result : ToolResult) : AgentState :=
  let recent := st.recent_results ++ [result]
  { st with
      last_result := some result
      recent_results := if recent.length > st.max_recent then recent.tail else recent }

end AgentState

/-! ## Agent loop (src/topomind/agent/core.py)

The Agent receives its planner and executor by construction; both are
external collaborators, so they enter the embedding as oracle functions
in AgentEnv, together with the wall-clock decay factor consumed by the
reliability tracker and the semantic-extraction LLM reply. -/

/-- External collaborators and environment inputs of one Agent. -/
structure AgentEnv where
  /-- planner.generate_plan(user_input, signals, tools); none models a
  planner returning no plan object. -/
  planner : String → Signals → List String → Option Plan
  /-- executor.execute(tool_name, arguments). -/
  executeTool : String → List (String × PyVal) → ToolResult
  /-- registry.list_tools(), as the tool names handed to the planner. -/
  tools : List String
  /-- DECAY ** elapsed_seconds for each reliability record. -/
  reliabilityDecay : ℚ
  /-- Parsed reply of the semantic extractor on a given answer value. -/
  semantics : PyVal → SemanticKnowledge
  /-- Float square root used inside MemoryDecay.compute_importance. -/
  sqrtFn : ℚ → ℚ

/-- The mutable state owned by one Agent instance. -/
structure Agent where
  sys : MemorySystem
  state : AgentState
  reliability : ToolReliability

/-- A freshly constructed Agent: empty memory, fresh state. -/
def Agent.init : Agent :=
  { sys := initMemorySystem, state := AgentState.init,
    reliability := ToolReliability.init }

/-- The dictionary handed back by handle_query. -/
structure AgentResponse where
  status : String
  tool : Option String
  output : PyVal
  error : Option String
  deriving Repr

namespace Agent

/-- _failure_response. -/
def failure_response (message : String) : AgentResponse :=
  { status := "failure", tool := Option.none, output := .none,
    error := some message }

/-- _format_response. -/
def format_response : Option ToolResult → AgentResponse
  | Option.none => failure_response "No result produced"
  | some r =>
    { status := r.status, tool := some r.tool_name, output := r.output,
      error := r.error }

/-- Threaded state of the execution loop, plus the instrumented list of
executor invocations (tool name and arguments of each _execute_step). -/
structure ExecAcc where
  sys : MemorySystem
  state : AgentState
  reliability : ToolReliability
  trace : List (String × List (String × PyVal))

/-- _execute_step: call the executor, record execution in AgentState,
record reliability, and fold the result into memory as a tool
observation. -/
def execute_step (env : AgentEnv) (acc : ExecAcc) (tool_name : String)
    (args : List (String × PyVal)) : ToolResult × ExecAcc :=
  let result := env.executeTool tool_name args
  let st := acc.state.record_execution result
  let success := result.status = "success"
  let rel := acc.reliability.record env.reliabilityDecay tool_name success
  let tool_obs : Observation :=
    { source := "tool", type := "result", payload := result.toPyVal }
  let sys := MemoryUpdater.update_from_observation env.sqrtFn acc.sys tool_obs
  (result,
   { sys := sys, state := st, reliability := rel,
     trace := acc.trace ++ [(tool_name, args)] })

/-- The chaining injection at the top of the loop body: copy the step
arguments and add the previous result's code output when the step has no
code argument of its own. -/
def chainArgs (prev : Option ToolResult) (args : List (String × PyVal)) :
    List (String × PyVal) :=
  match prev with
  | some r =>
    match r.output with
    | .dict entries =>
      if PyVal.dictHasKey entries (.str "code")
          && !(args.any (fun kv => kv.1 = "code")) then
        PyDict.set "code" (PyVal.dictGet entries (.str "code") .none) args
      else args
    | _ => args
  | Option.none => args

/-- The for-loop of _execute_with_possible_replan: execute each step in
order, stop at the first non-success result and return it, else return
the last result. -/
def execLoop (env : AgentEnv) (acc : ExecAcc) (prev : Option ToolResult) :
    List PlanStep → Option ToolResult × ExecAcc
  | [] => (prev, acc)
  | step :: rest =>
    let working_args := chainArgs prev step.action.arguments
    let r := execute_step env acc step.action.tool_name working_args
    if r.1.status ≠ "success" then (some r.1, r.2)
    else execLoop env r.2 (some r.1) rest

/-- _execute_with_possible_replan(user_input, signals, tools, plan):
despite its name, the body is the plain chaining loop over the plan
steps; it consults no planner. -/
def execute_with_possible_replan (env : AgentEnv) (acc : ExecAcc)
    (plan : Plan) : Option ToolResult × ExecAcc :=
  execLoop env acc Option.none plan.steps

/-- The plan checks of _plan: a missing or empty plan yields None (the
first-step attribute probes cannot fail in the typed model). -/
def planCheck : Option Plan → Option Plan
  | Option.none => Option.none
  | some plan => if plan.steps.isEmpty then Option.none else some plan

/-- _handle_semantic_encoding: when the executed tool is the reason tool
and succeeded with a dict output carrying an answer, fold the extracted
sub-observations into memory through the ingestion path. -/
def handle_semantic_encoding (env : AgentEnv) (sys : MemorySystem) :
    Option ToolResult → MemorySystem
  | Option.none => sys
  | some r =>
    match r.output with
    | .dict entries =>
      if r.tool_name = "reason" && r.status = "success"
          && PyVal.dictHasKey entries (.str "answer") then
        let answer := PyVal.dictGet entries (.str "answer") .none
        (ObservationBuilder.from_reason_result (env.semantics answer)).foldl
          (MemoryUpdater.update_from_observation env.sqrtFn) sys
      else sys
    | _ => sys

/-- Everything one handle_query call produces, with instrumentation: the
signals handed to the planner, the number of planner invocations
performed during the turn, and the executor invocations. -/
structure TurnOutput where
  agent : Agent
  response : AgentResponse
  signals : Signals
  plannerCalls : Nat
  execTrace : List (String × List (String × PyVal))

/-- handle_query: start the turn (session state + user observation),
extract stability signals, call the planner once, execute the plan steps
and fold results and semantic sub-observations back into memory. -/
def handle_query (env : AgentEnv) (a : Agent) (user_input : String) :
    TurnOutput :=
  let st1 := a.state.new_turn user_input
  let user_obs : Observation :=
    { source := "user", type := "entity", payload := .str user_input }
  let sys1 := MemoryUpdater.update_from_observation env.sqrtFn a.sys user_obs
  let signals := StabilitySignals.extract sys1.graph
  match planCheck (env.planner user_input signals env.tools) with
  | Option.none =>
    { agent := { sys := sys1, state := st1, reliability := a.reliability }
      response := failure_response "Planner produced no action"
      signals := signals
      plannerCalls := 1
      execTrace := [] }
  | some plan =>
    let acc0 : ExecAcc :=
      { sys := sys1, state := st1, reliability := a.reliability, trace := [] }
    let r := execute_with_possible_replan env acc0 plan
    let sys2 := handle_semantic_encoding env r.2.sys r.1
    { agent := { sys := sys2, state := r.2.state, reliability := r.2.reliability }
      response := format_response r.1
      signals := signals
      plannerCalls := 1
      execTrace := r.2.trace }

/-- A session: handle_query over a list of inputs against one Agent. -/
def runQueries (env : AgentEnv) (a : Agent) (qs : List String) : Agent :=
  qs.foldl (fun a q => (handle_query env a q).agent) a

/-- Reference sequence for reasoning about the loop: the result each
plan step would produce under chaining, each computed from its
predecessor's result, with no stop condition. The executor's reply
depends only on the tool name and arguments, so this sequence is
determined by the step list alone. -/
def chainResults (env : AgentEnv) (prev : Option ToolResult) :
    List PlanStep → List ToolResult
  | [] => []
  | step :: rest =>
    let r := env.executeTool step.action.tool_name
      (chainArgs prev step.action.arguments)
    r :: chainResults env (some r) rest

/-- Reference sequence of the executor invocations (tool name and
chained arguments) each plan step would issue under chaining, with no
stop condition. -/
def chainCalls (env : AgentEnv) (prev : Option ToolResult) :
    List PlanStep → List (String × List (String × PyVal))
  | [] => []
  | step :: rest =>
    let args := chainArgs prev step.action.arguments
    let r := env.executeTool step.action.tool_name args
    (step.action.tool_name, args) :: chainCalls env (some r) rest

end Agent

/-! ## Concrete instances used by the verification -/

/-- A user entity observation, as _start_turn builds one. -/
def entityObservation (value : String) : Observation :=
  { source := "user", type := "entity", payload := .str value }

/-- The Einstein / Bohr / Einstein ingestion schedule: entity
observations at turns 1, 2 and 3, examined from turn 4. -/
def einsteinBohrOps : List MemOp :=
  [.newTurn, .observe (entityObservation "Einstein"),
   .newTurn, .observe (entityObservation "Bohr"),
   .newTurn, .observe (entityObservation "Einstein"),
   .newTurn]

/-- Stand-in for the float square root in the concrete runs below: each
of them only ever applies it at persistence counts 0 or 1, where the
identity agrees with the real square root. -/
def sqrtId : ℚ → ℚ := fun q => q

/-- One-node graph at turn 10 for the forgetting scenario. -/
def forgetGraph : MemoryGraph :=
  { nodes := [("n1", { id := "n1", type := "entity", value := .str "v",
                       turn_created := 0 })],
    edges := [], turn := 10, next_id := 1 }

/-- Scorer that reinforced n1 once, last seen at turn 3. -/
def forgetScorer : PersistenceScorer :=
  PersistenceScorer.init.register_occurrence "n1" (some 3)

/-- A successful tool result with an empty dict output. -/
def okResult (name : String) : ToolResult :=
  { tool_name := name, tool_version := "1.0", status := "success",
    output := .dict [], error := Option.none, latency_ms := 1,
    stability_signal := 1 }

/-- A failed tool result. -/
def errResult (name : String) : ToolResult :=
  { tool_name := name, tool_version := "1.0", status := "failure",
    output := .none, error := some "boom", latency_ms := 1,
    stability_signal := 0 }

/-- A plan invoking the given tools in order with empty arguments. -/
def planOf (names : List String) : Plan :=
  { steps := names.map (fun n =>
      { action := { tool_name := n, arguments := [], id := "call",
                    confidence := 1, reason := "" },
        reasoning := "", confidence := 1 })
    goal := Option.none }

/-- Semantic extractor reply with no extracted knowledge. -/
def noSemantics : PyVal → SemanticKnowledge :=
  fun _ => { concepts := [], facts := [], relations := [] }

/-- Environment whose planner proposes the two-step plan alpha, beta and
whose executor always succeeds. -/
def envTwoStepOk : AgentEnv :=
  { planner := fun _ _ _ => some (planOf ["alpha", "beta"])
    executeTool := fun n _ => okResult n
    tools := ["alpha", "beta"]
    reliabilityDecay := 1
    semantics := noSemantics
    sqrtFn := sqrtId }

/-- Environment whose planner proposes the single-step plan search and
whose executor always fails. -/
def envFailingSearch : AgentEnv :=
  { planner := fun _ _ _ => some (planOf ["search"])
    executeTool := fun n _ => errResult n
    tools := ["search"]
    reliabilityDecay := 1
    semantics := noSemantics
    sqrtFn := sqrtId }

/-- The fresh execution accumulator handle_query builds for the loop. -/
def emptyAcc : Agent.ExecAcc :=
  { sys := initMemorySystem, state := AgentState.init,
    reliability := ToolReliability.init, trace := [] }

/-- A well-formed one-node graph with one dangling-candidate edge. -/
def removalGraph : MemoryGraph :=
  { nodes := [("a", { id := "a", type := "entity", value := .str "x",
                      turn_created := 0 })],
    edges := [{ source := "a", target := "b", relation := "likes" }],
    turn := 0, next_id := 1 }

/-- Persisted scorer snapshot with well-formed entries (a and c, the
latter with a boolean value, an int in Python) and malformed ones (a
non-string key, a negative value). -/
def loadSnapshot : PyVal :=
  .dict [(.str "scores",
            .dict [(.str "a", .int 2), (.int 7, .int 3),
                   (.str "b", .int (-1)), (.str "c", .bool true)]),
         (.str "last_seen", .dict [(.str "a", .int 4)])]

/-- Number of entries of a Python dict whose key is the given string. -/
def keyCount (entries : List (PyVal × PyVal)) (k : String) : Nat :=
  (entries.filter (fun kv => PyVal.pyEq kv.1 (.str k))).length

/-- The graph well-formedness every construction maintains: each entry of
the node mapping stores a node carrying its own key as id. -/
def GraphWF (g : MemoryGraph) : Prop :=
  ∀ kn ∈ g.nodes, kn.2.id = kn.1

/-- Turn-zero invariant: the graph turn counter is 0 and every node was
created at turn 0. -/
def GraphZero (s : MemorySystem) : Prop :=
  s.graph.turn = 0 ∧ ∀ kn ∈ s.graph.nodes, kn.2.turn_created = 0

/-- Invariant of systems fed solely through update_from_observation: the
last-seen map stays empty, node ids come from the fresh-id counter, and
node keys are unique. -/
def UpdaterOnly (s : MemorySystem) : Prop :=
  s.scorer.last_seen_map = []
  ∧ (∀ kn ∈ s.graph.nodes, ∃ j, j < s.graph.next_id ∧ kn.1 = MemoryGraph.mkId j)
  ∧ (s.graph.nodes.map Prod.fst).Nodup

/-! ## Helper lemmas -/

theorem PyDict.get?_set_self {α : Type} (k : String) (v : α) :
    ∀ l : List (String × α), PyDict.get? (PyDict.set k v l) k = some v := by
  intro l
  induction l with
  | nil => simp [PyDict.get?, PyDict.set]
  | cons kv rest ih =>
    cases kv with
    | mk k0 v0 =>
      by_cases h : k0 = k
      · simp [PyDict.set, h, PyDict.get?]
      · simp [PyDict.set, h, PyDict.get?, ih]

theorem PyDict.get?_set_other {α : Type} (k k2 : String) (v : α) (hne : k ≠ k2) :
    ∀ l : List (String × α), PyDict.get? (PyDict.set k v l) k2 = PyDict.get? l k2 := by
  intro l
  induction l with
  | nil => simp [PyDict.get?, PyDict.set, hne]
  | cons kv rest ih =>
    cases kv with
    | mk k0 v0 =>
      by_cases h : k0 = k
      · subst h
        simp [PyDict.set, PyDict.get?, hne]
      · by_cases h2 : k0 = k2
        · simp [PyDict.set, h, PyDict.get?, h2, Ne.symm hne]
        · simp [PyDict.set, h, PyDict.get?, h2, ih]

theorem PyDict.get?_mem {α : Type} {k : String} {v : α} :
    ∀ {l : List (String × α)}, PyDict.get? l k = some v → (k, v) ∈ l := by
  intro l
  induction l with
  | nil => simp [PyDict.get?]
  | cons kv rest ih =>
    cases kv with
    | mk k0 v0 =>
      by_cases h : k0 = k
      · subst h
        simp only [PyDict.get?, if_pos rfl]
        intro hv
        cases hv
        exact List.mem_cons_self _ _
      · simp only [PyDict.get?, if_neg h]
        intro hv
        exact List.mem_cons_of_mem _ (ih hv)

theorem PyDict.mem_of_mem_erase {α : Type} {k : String} {kn : String × α} :
    ∀ {l : List (String × α)}, kn ∈ PyDict.erase k l → kn ∈ l := by
  intro l
  induction l with
  | nil => simp [PyDict.erase]
  | cons kv rest ih =>
    cases kv with
    | mk k0 v0 =>
      by_cases h : k0 = k
      · simp only [PyDict.erase, if_pos h]
        intro hm
        exact List.mem_cons_of_mem _ hm
      · simp only [PyDict.erase, if_neg h, List.mem_cons]
        rintro (rfl | hm)
        · exact Or.inl rfl
        · exact Or.inr (ih hm)

theorem PyVal.pyEq_str (a b : String) :
    PyVal.pyEq (.str a) (.str b) = decide (a = b) := by
  simp [PyVal.pyEq, PyVal.numVal?]

theorem MemoryGraph.mkId_inj {j k : Nat} (h : MemoryGraph.mkId j = MemoryGraph.mkId k) :
    j = k := by
  have hd : List.replicate (j + 1) 'u' = List.replicate (k + 1) 'u' := by
    injection h
  have := congrArg List.length hd
  simpa using this

/-! ## Claim C7 -/

/-- C7: for a tool with no prior statistics, recording exactly one
successful outcome gives a reliability score of exactly 0.5 + 0.5/5 =
0.6, strictly between 0.5 and 1.0 — for every wall-clock decay factor,
since decay multiplies the still-zero accumulators. -/
theorem c7_single_success_score_is_shrunk (decay_factor : ℚ) (tool : String) :
    (ToolReliability.init.record decay_factor tool true).score tool = 3 / 5
    ∧ (1 : ℚ) / 2 < 3 / 5 ∧ (3 : ℚ) / 5 < 1 := by
  refine ⟨?_, by norm_num, by norm_num⟩
  simp [ToolReliability.record, ToolReliability.score, ToolReliability.init,
    ToolReliability.MIN_SAMPLES, PyDict.get?, PyDict.set]
  norm_num

/-! ## Claim C3 -/

/-- C3: the claim fails on the code. MemoryForgetting.prune removes the
node n1 from the graph (it is the sole member of the removed-nodes list
and the node mapping ends up empty), yet the Persistence Scorer still
holds its entries afterwards: score returns 1 (not 0) and last_seen
returns 3 (not -1). prune never invokes PersistenceScorer.remove. -/
theorem c3_prune_does_not_cascade_to_scorer :
    ((MemoryUpdater.pruneCycle sqrtId { graph := forgetGraph, scorer := forgetScorer } 0).2.1.map
        Node.id = ["n1"])
    ∧ (MemoryUpdater.pruneCycle sqrtId { graph := forgetGraph, scorer := forgetScorer } 0).1.graph.nodes = []
    ∧ (MemoryUpdater.pruneCycle sqrtId { graph := forgetGraph, scorer := forgetScorer } 0).1.scorer.score "n1" = 1
    ∧ (MemoryUpdater.pruneCycle sqrtId { graph := forgetGraph, scorer := forgetScorer } 0).1.scorer.last_seen "n1" = 3 := by
  refine ⟨?_, ?_, ?_, ?_⟩ <;> with_unfolding_all rfl

/-! ## Claim C6 -/

/-- C6: the claim fails on the code. With Einstein ingested at turns 1
and 3 and Bohr at turn 2, all through update_from_observation, the
deduplicator collapses the repeated Einstein into a single reinforced
node, and persistent_entities counts nodes per value, so at turn 4 no
value reaches the threshold 2 and the result is the empty list, not
the claimed singleton Einstein. -/
theorem c6_persistent_entities_empty_after_dedup :
    PersistenceAnalyzer.persistent_entities (runMemOps sqrtId einsteinBohrOps).graph 2 1
      = .ok []
    ∧ (runMemOps sqrtId einsteinBohrOps).graph.turn = 4
    ∧ ((runMemOps sqrtId einsteinBohrOps).graph.nodeList.map Node.value)
        = [.str "Einstein", .str "Bohr"]
    ∧ (runMemOps sqrtId einsteinBohrOps).scorer.score (MemoryGraph.mkId 0) = 2 := by
  refine ⟨?_, ?_, ?_, ?_⟩ <;> with_unfolding_all rfl

/-! ## Claim C5 -/

/-- C5: the claim fails on the code. For the schema declaring field x as
int and the boolean value True, the Argument Validator accepts the
arguments without error (isinstance(True, int) holds in Python), while
only the Output Validator rejects the value. -/
theorem c5_bool_accepted_by_argument_validator :
    ArgumentValidator.validate [("x", "int")] [("x", PyVal.bool true)]
      = .ok [("x", PyVal.bool true)]
    ∧ (OutputValidator.validate [("x", "int")] (.dict [(.str "x", .bool true)])
        = .error (.typeMismatch "x" "int")) := by
  refine ⟨?_, ?_⟩ <;> with_unfolding_all rfl

/-- C5 (amended): where a schema declares a field as int, a boolean value
passes the Argument Validator's type match and whole validation, and is
rejected by the Output Validator, whose type match alone excludes bool
from int. -/
theorem c5_amended_only_output_validator_rejects_bool (b : Bool) :
    ArgumentValidator.stringTypeMatch "int" (.bool b) = true
    ∧ OutputValidator.stringTypeMatch "int" (.bool b) = .ok false
    ∧ ArgumentValidator.validate [("x", "int")] [("x", .bool b)]
        = .ok [("x", .bool b)]
    ∧ (OutputValidator.validate [("x", "int")] (.dict [(.str "x", .bool b)])
        = .error (.typeMismatch "x" "int")) := by
  refine ⟨?_, ?_, ?_, ?_⟩ <;> with_unfolding_all rfl

/-! ## Claims C1 and C2: the execution loop -/

theorem Agent.execLoop_trace_spec :
    ∀ (steps : List PlanStep) (env : AgentEnv) (acc : Agent.ExecAcc)
      (prev : Option ToolResult),
      ∃ t, (Agent.execLoop env acc prev steps).2.trace = acc.trace ++ t
        ∧ (t = [] ↔ steps = []) := by
  intro steps
  induction steps with
  | nil =>
    intro env acc prev
    exact ⟨[], by simp [Agent.execLoop], by simp⟩
  | cons step rest ih =>
    intro env acc prev
    simp only [Agent.execLoop]
    by_cases h :
        (Agent.execute_step env acc step.action.tool_name
          (Agent.chainArgs prev step.action.arguments)).1.status ≠ "success"
    · rw [if_pos h]
      refine ⟨[(step.action.tool_name, Agent.chainArgs prev step.action.arguments)], ?_, by simp⟩
      simp [Agent.execute_step]
    · rw [if_neg h]
      obtain ⟨t, ht, _⟩ := ih env
        (Agent.execute_step env acc step.action.tool_name
          (Agent.chainArgs prev step.action.arguments)).2
        (some (Agent.execute_step env acc step.action.tool_name
          (Agent.chainArgs prev step.action.arguments)).1)
      refine ⟨(step.action.tool_name, Agent.chainArgs prev step.action.arguments) :: t, ?_, by simp⟩
      rw [ht]
      simp [Agent.execute_step]

/-- C2: the claim fails on the code. For the two-step plan alpha, beta
under an always-succeeding executor, _execute_with_possible_replan
executes both steps through the Tool Executor (the instrumented trace
lists both invocations) and returns the second step's result — the step
beyond the first is executed, and not through any replanning protocol
(the loop consults no planner). -/
theorem c2_counterexample_second_step_executed :
    ((Agent.execute_with_possible_replan envTwoStepOk emptyAcc
        (planOf ["alpha", "beta"])).2.trace.map Prod.fst) = ["alpha", "beta"]
    ∧ (Agent.execute_with_possible_replan envTwoStepOk emptyAcc
        (planOf ["alpha", "beta"])).1 = some (okResult "beta") := by
  refine ⟨?_, ?_⟩ <;> with_unfolding_all rfl

/-- Full characterization of the chaining loop against the reference
sequences: some prefix of length n of the plan is executed — its calls
are exactly the first n chained calls appended to the accumulator's
trace; the returned value is the n-th chained result; every result
before the n-th had status success; and either the n-th result is a
non-success (the loop stopped at the first non-success and returned it)
or n is the whole plan and every result was a success. -/
theorem Agent.execLoop_run (env : AgentEnv) :
    ∀ (steps : List PlanStep) (acc : Agent.ExecAcc) (prev : Option ToolResult),
      steps ≠ [] →
      ∃ n, 1 ≤ n ∧ n ≤ steps.length
        ∧ (Agent.execLoop env acc prev steps).2.trace
            = acc.trace ++ (Agent.chainCalls env prev steps).take n
        ∧ (Agent.execLoop env acc prev steps).1
            = (Agent.chainResults env prev steps)[n - 1]?
        ∧ (∀ j, j + 1 < n →
            ∃ r, (Agent.chainResults env prev steps)[j]? = some r
              ∧ r.status = "success")
        ∧ ((∃ r, (Agent.chainResults env prev steps)[n - 1]? = some r
              ∧ r.status ≠ "success"
              ∧ (Agent.execLoop env acc prev steps).1 = some r)
            ∨ (n = steps.length
              ∧ ∀ j, j < n →
                  ∃ r, (Agent.chainResults env prev steps)[j]? = some r
                    ∧ r.status = "success")) := by
  intro steps
  induction steps with
  | nil =>
    intro acc prev h
    exact absurd rfl h
  | cons step rest ih =>
    intro acc prev _
    simp only [Agent.execLoop]
    by_cases hfail :
        (Agent.execute_step env acc step.action.tool_name
          (Agent.chainArgs prev step.action.arguments)).1.status ≠ "success"
    · rw [if_pos hfail]
      refine ⟨1, le_refl 1, by simp, ?_, ?_, ?_, ?_⟩
      · simp [Agent.execute_step, Agent.chainCalls]
      · simp [Agent.execute_step, Agent.chainResults]
      · intro j hj
        omega
      · left
        refine ⟨(Agent.execute_step env acc step.action.tool_name
            (Agent.chainArgs prev step.action.arguments)).1, ?_, hfail, rfl⟩
        simp [Agent.execute_step, Agent.chainResults]
    · rw [if_neg hfail]
      push_neg at hfail
      cases rest with
      | nil =>
        refine ⟨1, le_refl 1, by simp, ?_, ?_, ?_, ?_⟩
        · simp [Agent.execLoop, Agent.execute_step, Agent.chainCalls]
        · simp [Agent.execLoop, Agent.execute_step, Agent.chainResults]
        · intro j hj
          omega
        · right
          refine ⟨by simp, ?_⟩
          intro j hj
          have hj0 : j = 0 := by omega
          subst hj0
          refine ⟨(Agent.execute_step env acc step.action.tool_name
              (Agent.chainArgs prev step.action.arguments)).1, ?_, hfail⟩
          simp [Agent.execute_step, Agent.chainResults]
      | cons s2 rest2 =>
        obtain ⟨m, hm1, hm2, htr, hres, hbef, hlast⟩ :=
          ih (Agent.execute_step env acc step.action.tool_name
                (Agent.chainArgs prev step.action.arguments)).2
            (some (Agent.execute_step env acc step.action.tool_name
                (Agent.chainArgs prev step.action.arguments)).1)
            (by simp)
        have hlen2 : (s2 :: rest2).length = rest2.length + 1 := rfl
        refine ⟨m + 1, by omega, ?_, ?_, ?_, ?_, ?_⟩
        · simp only [List.length_cons]
          rw [hlen2] at hm2
          omega
        · rw [htr]
          have htrace1 :
              (Agent.execute_step env acc step.action.tool_name
                (Agent.chainArgs prev step.action.arguments)).2.trace
                = acc.trace ++ [(step.action.tool_name,
                    Agent.chainArgs prev step.action.arguments)] := by
            simp [Agent.execute_step]
          rw [htrace1, List.append_assoc]
          with_unfolding_all rfl
        · rw [hres, show m + 1 - 1 = (m - 1) + 1 from by omega]
          simp only [Agent.chainResults, List.getElem?_cons_succ]
          with_unfolding_all rfl
        · intro j hj
          cases j with
          | zero =>
            refine ⟨(Agent.execute_step env acc step.action.tool_name
                (Agent.chainArgs prev step.action.arguments)).1, ?_, hfail⟩
            with_unfolding_all rfl
          | succ j2 =>
            obtain ⟨r, hr, hrs⟩ := hbef j2 (by omega)
            refine ⟨r, ?_, hrs⟩
            rw [← hr]
            simp only [Agent.chainResults, List.getElem?_cons_succ]
            with_unfolding_all rfl
        · rcases hlast with ⟨r, hr, hrfail, hout⟩ | ⟨hlen, hall⟩
          · left
            refine ⟨r, ?_, hrfail, hout⟩
            rw [← hr, show m + 1 - 1 = (m - 1) + 1 from by omega]
            simp only [Agent.chainResults, List.getElem?_cons_succ]
            with_unfolding_all rfl
          · right
            constructor
            · simp only [List.length_cons]
              rw [hlen2] at hlen
              omega
            · intro j hj
              cases j with
              | zero =>
                refine ⟨(Agent.execute_step env acc step.action.tool_name
                    (Agent.chainArgs prev step.action.arguments)).1, ?_, hfail⟩
                with_unfolding_all rfl
              | succ j2 =>
                obtain ⟨r, hr, hrs⟩ := hall j2 (by omega)
                refine ⟨r, ?_, hrs⟩
                rw [← hr]
                simp only [Agent.chainResults, List.getElem?_cons_succ]
                with_unfolding_all rfl

/-- C2 (amended): the loop of _execute_with_possible_replan executes a
prefix of the plan of some length n ≥ 1 — the first step always runs —
and the executed calls are exactly the first n chained calls, in order;
each step beyond the first executed only because every earlier step's
result was success (all results before the n-th are successes); the loop
returns the n-th result, which is either the first non-success at
whatever position it occurs (the loop stops there and returns it) or,
when every step succeeds, the whole plan has run and the last result is
returned. No replanning protocol is involved: the loop consults no
planner. -/
theorem c2_amended_sequential_until_failure (env : AgentEnv)
    (acc : Agent.ExecAcc) (hacc : acc.trace = []) (steps : List PlanStep)
    (hne : steps ≠ []) :
    ∃ n, 1 ≤ n ∧ n ≤ steps.length
      ∧ (Agent.execLoop env acc Option.none steps).2.trace
          = (Agent.chainCalls env Option.none steps).take n
      ∧ (Agent.execLoop env acc Option.none steps).1
          = (Agent.chainResults env Option.none steps)[n - 1]?
      ∧ (∀ j, j + 1 < n →
          ∃ r, (Agent.chainResults env Option.none steps)[j]? = some r
            ∧ r.status = "success")
      ∧ ((∃ r, (Agent.chainResults env Option.none steps)[n - 1]? = some r
            ∧ r.status ≠ "success"
            ∧ (Agent.execLoop env acc Option.none steps).1 = some r)
          ∨ (n = steps.length
            ∧ ∀ j, j < n →
                ∃ r, (Agent.chainResults env Option.none steps)[j]? = some r
                  ∧ r.status = "success")) := by
  obtain ⟨n, h1, h2, h3, h4, h5, h6⟩ :=
    Agent.execLoop_run env steps acc Option.none hne
  refine ⟨n, h1, h2, ?_, h4, h5, h6⟩
  rw [h3, hacc]
  simp

/-- C2 (amended) witness at the two-step plan under the succeeding
executor: both results succeed, so the theorem forces n = 2 — the whole
chained call sequence runs and the second step's result is returned. -/
theorem c2_amended_witness :
    (Agent.execLoop envTwoStepOk emptyAcc Option.none
        ({ action := { tool_name := "alpha", arguments := [], id := "call",
                       confidence := 1, reason := "" },
           reasoning := "", confidence := 1 } ::
         [{ action := { tool_name := "beta", arguments := [], id := "call",
                        confidence := 1, reason := "" },
            reasoning := "", confidence := 1 }])).2.trace
      = [("alpha", []), ("beta", [])]
    ∧ (Agent.execLoop envTwoStepOk emptyAcc Option.none
        ({ action := { tool_name := "alpha", arguments := [], id := "call",
                       confidence := 1, reason := "" },
           reasoning := "", confidence := 1 } ::
         [{ action := { tool_name := "beta", arguments := [], id := "call",
                        confidence := 1, reason := "" },
            reasoning := "", confidence := 1 }])).1
      = some (okResult "beta") := by
  obtain ⟨n, h1, h2, htr, hres, hbef, hlast⟩ :=
    c2_amended_sequential_until_failure envTwoStepOk emptyAcc rfl
      ({ action := { tool_name := "alpha", arguments := [], id := "call",
                     confidence := 1, reason := "" },
         reasoning := "", confidence := 1 } ::
       [{ action := { tool_name := "beta", arguments := [], id := "call",
                      confidence := 1, reason := "" },
          reasoning := "", confidence := 1 }])
      (by simp)
  have h2' : n ≤ 2 := by simpa using h2
  have hcr :
      Agent.chainResults envTwoStepOk Option.none
        ({ action := { tool_name := "alpha", arguments := [], id := "call",
                       confidence := 1, reason := "" },
           reasoning := "", confidence := 1 } ::
         [{ action := { tool_name := "beta", arguments := [], id := "call",
                        confidence := 1, reason := "" },
            reasoning := "", confidence := 1 }])
        = [okResult "alpha", okResult "beta"] := by
    with_unfolding_all rfl
  have hn : n = 2 := by
    rcases hlast with ⟨r, hr, hrfail, _⟩ | ⟨hlen, _⟩
    · exfalso
      rw [hcr] at hr
      have hn12 : n = 1 ∨ n = 2 := by omega
      rcases hn12 with rfl | rfl
      · simp at hr
        subst hr
        exact hrfail rfl
      · simp at hr
        subst hr
        exact hrfail rfl
    · simpa using hlen
  subst hn
  constructor
  · rw [htr]
    with_unfolding_all rfl
  · rw [hres, hcr]
    with_unfolding_all rfl

/-! ## Claim C1 -/

/-- C1: the claim is about a replanning protocol the code does not
implement. Evaluating the loop at a failing first step: handle_query
invokes the planner exactly once (the instrumented count), executes the
single step once, and hands back the failed result directly — no second
planner invocation exists whose tool choice could be compared with the
failed attempt. -/
theorem c1_failed_step_returns_without_replanning :
    (Agent.handle_query envFailingSearch Agent.init "find it").plannerCalls = 1
    ∧ (Agent.handle_query envFailingSearch Agent.init "find it").execTrace
        = [("search", [])]
    ∧ (Agent.handle_query envFailingSearch Agent.init "find it").response
        = { status := "failure", tool := some "search", output := PyVal.none,
            error := some "boom" } := by
  refine ⟨?_, ?_, ?_⟩ <;> with_unfolding_all rfl

/-! ## Claim C4 -/

theorem MemoryGraph.popFold_ids (g : MemoryGraph) (hwf : GraphWF g)
    (ids : List String) :
    ∀ (l : List String) (acc : List (String × Node) × List Node),
      (∀ x ∈ l, x ∈ ids) →
      (∀ kn ∈ acc.1, kn ∈ g.nodes) →
      (∀ n ∈ acc.2, n.id ∈ ids) →
      ∀ n ∈ (l.foldl MemoryGraph.popOne acc).2, n.id ∈ ids := by
  intro l
  induction l with
  | nil =>
    intro acc _ _ hacc2
    simpa using hacc2
  | cons nid rest ih =>
    intro acc hl hacc1 hacc2
    simp only [List.foldl_cons]
    have hnid : nid ∈ ids := hl nid (List.mem_cons_self _ _)
    have hrest : ∀ x ∈ rest, x ∈ ids := fun x hx => hl x (List.mem_cons_of_mem _ hx)
    cases hget : PyDict.get? acc.1 nid with
    | none =>
      have : MemoryGraph.popOne acc nid = acc := by
        simp [MemoryGraph.popOne, hget]
      rw [this]
      exact ih acc hrest hacc1 hacc2
    | some node =>
      have hstep : MemoryGraph.popOne acc nid
          = (PyDict.erase nid acc.1, acc.2 ++ [node]) := by
        simp [MemoryGraph.popOne, hget]
      rw [hstep]
      refine ih _ hrest ?_ ?_
      · intro kn hkn
        exact hacc1 kn (PyDict.mem_of_mem_erase hkn)
      · intro n hn
        rcases List.mem_append.mp hn with hold | hnew
        · exact hacc2 n hold
        · have heq : n = node := by simpa using hnew
          subst heq
          have hmem : (nid, n) ∈ acc.1 := PyDict.get?_mem hget
          have hid : n.id = nid := hwf (nid, n) (hacc1 _ hmem)
          rw [hid]
          exact hnid

/-- C4: after remove_nodes, no remaining edge touches any removed node's
id, and every original edge touching a removed node is in the returned
removed-edges list (for well-formed graphs, whose node mapping stores
each node under its own id). -/
theorem c4_remove_nodes_no_dangling (g : MemoryGraph) (ids : List String)
    (hwf : GraphWF g) :
    (∀ e ∈ (g.remove_nodes ids).1.edges, ∀ n ∈ (g.remove_nodes ids).2.1,
        e.source ≠ n.id ∧ e.target ≠ n.id)
    ∧ (∀ e ∈ g.edges,
        (∃ n ∈ (g.remove_nodes ids).2.1, e.source = n.id ∨ e.target = n.id) →
        e ∈ (g.remove_nodes ids).2.2) := by
  have hids : ∀ n ∈ (g.remove_nodes ids).2.1, n.id ∈ ids := by
    intro n hn
    refine MemoryGraph.popFold_ids g hwf ids ids (g.nodes, [])
      (fun x hx => hx) (fun kn hkn => hkn) (by simp) n ?_
    simpa [MemoryGraph.remove_nodes] using hn
  constructor
  · intro e he n hn
    have hnid := hids n hn
    simp only [MemoryGraph.remove_nodes, List.mem_filter] at he
    have hpred := he.2
    simp only [Bool.not_eq_true', Bool.or_eq_false_iff] at hpred
    constructor
    · intro hcontra
      have : ids.contains e.source = true := by
        rw [hcontra]
        simpa using hnid
      rw [this] at hpred
      exact absurd hpred.1 (by simp)
    · intro hcontra
      have : ids.contains e.target = true := by
        rw [hcontra]
        simpa using hnid
      rw [this] at hpred
      exact absurd hpred.2 (by simp)
  · intro e he ⟨n, hn, htouch⟩
    have hnid := hids n hn
    simp only [MemoryGraph.remove_nodes, List.mem_filter]
    refine ⟨he, ?_⟩
    rcases htouch with hsrc | htgt
    · simp [hsrc, hnid]
    · simp [htgt, hnid]

/-- C4 witness at the one-node graph with a dangling candidate: removing
node a also removes the edge from a, which appears in the removed-edges
list. -/
theorem c4_witness :
    ({ source := "a", target := "b", relation := "likes" } : Edge)
      ∈ (removalGraph.remove_nodes ["a"]).2.2 := by
  have hwf : GraphWF removalGraph := by
    intro kn hkn
    simp only [removalGraph] at hkn
    rw [List.mem_singleton] at hkn
    subst hkn
    rfl
  have h := c4_remove_nodes_no_dangling removalGraph ["a"] hwf
  refine h.2 _ (by simp [removalGraph]) ?_
  refine ⟨{ id := "a", type := "entity", value := .str "x", turn_created := 0 },
    ?_, Or.inl rfl⟩
  have : (removalGraph.remove_nodes ["a"]).2.1
      = [{ id := "a", type := "entity", value := .str "x", turn_created := 0 }] := by
    with_unfolding_all rfl
  rw [this]
  exact List.mem_singleton_self _

/-! ## Claim C10 -/

theorem PyVal.pyEq_str_right_iff (x : PyVal) (k : String) :
    PyVal.pyEq x (.str k) = true ↔ x = PyVal.str k := by
  cases x <;> simp [PyVal.pyEq, PyVal.numVal?]

theorem keyCount_cons_self (v : PyVal) (rest : List (PyVal × PyVal)) (k : String) :
    keyCount ((PyVal.str k, v) :: rest) k = keyCount rest k + 1 := by
  simp [keyCount, List.filter_cons, PyVal.pyEq_str]

theorem keyCount_cons_other {x : PyVal} (v : PyVal) (rest : List (PyVal × PyVal))
    (k : String) (h : x ≠ PyVal.str k) :
    keyCount ((x, v) :: rest) k = keyCount rest k := by
  have hb : PyVal.pyEq x (.str k) = false := by
    cases hb : PyVal.pyEq x (.str k)
    · rfl
    · exact absurd ((PyVal.pyEq_str_right_iff x k).mp hb) h
  simp [keyCount, List.filter_cons, hb]

theorem keyCount_pos_of_mem {entries : List (PyVal × PyVal)} {k : String}
    {v : PyVal} (hm : (PyVal.str k, v) ∈ entries) : 0 < keyCount entries k := by
  unfold keyCount
  have hmf : (PyVal.str k, v) ∈ entries.filter (fun kv => PyVal.pyEq kv.1 (.str k)) :=
    List.mem_filter.mpr ⟨hm, by simp [PyVal.pyEq_str]⟩
  exact List.length_pos.mpr (List.ne_nil_of_mem hmf)

theorem PersistenceScorer.loadEntries_spec :
    ∀ (entries : List (PyVal × PyVal)) (acc : List (String × Int)) (k : String),
      (keyCount entries k = 0 →
        PyDict.get? (PersistenceScorer.loadEntries entries acc) k = PyDict.get? acc k)
      ∧ (∀ v n, (PyVal.str k, v) ∈ entries → keyCount entries k = 1 →
          PyVal.toInt? v = some n → 0 ≤ n →
          PyDict.get? (PersistenceScorer.loadEntries entries acc) k = some n)
      ∧ (∀ v, (PyVal.str k, v) ∈ entries → keyCount entries k = 1 →
          (PyVal.toInt? v = Option.none ∨ ∃ m, PyVal.toInt? v = some m ∧ m < 0) →
          PyDict.get? (PersistenceScorer.loadEntries entries acc) k = PyDict.get? acc k) := by
  intro entries
  induction entries with
  | nil =>
    intro acc k
    refine ⟨fun _ => rfl, ?_, ?_⟩ <;> simp [PersistenceScorer.loadEntries]
  | cons kv rest ih =>
    intro acc k
    obtain ⟨k1, v1⟩ := kv
    by_cases hk : k1 = PyVal.str k
    · subst hk
      have hcount : keyCount ((PyVal.str k, v1) :: rest) k = keyCount rest k + 1 :=
        keyCount_cons_self v1 rest k
      cases hv : PyVal.toInt? v1 with
      | none =>
        have hload : PersistenceScorer.loadEntries ((PyVal.str k, v1) :: rest) acc
            = PersistenceScorer.loadEntries rest acc := by
          simp [PersistenceScorer.loadEntries, hv]
        rw [hload, hcount]
        refine ⟨?_, ?_, ?_⟩
        · intro h0
          exact absurd h0 (by omega)
        · intro v n hm hc hvn _
          have hrest0 : keyCount rest k = 0 := by omega
          rcases List.mem_cons.mp hm with hhead | hrest
          · have hv2 : v = v1 := congrArg Prod.snd hhead
            rw [hv2, hv] at hvn
            exact absurd hvn (by simp)
          · exact absurd (keyCount_pos_of_mem hrest) (by omega)
        · intro v hm hc _
          have hrest0 : keyCount rest k = 0 := by omega
          exact (ih acc k).1 hrest0
      | some n1 =>
        by_cases hneg : n1 < 0
        · have hload : PersistenceScorer.loadEntries ((PyVal.str k, v1) :: rest) acc
              = PersistenceScorer.loadEntries rest acc := by
            simp [PersistenceScorer.loadEntries, hv, hneg]
          rw [hload, hcount]
          refine ⟨?_, ?_, ?_⟩
          · intro h0
            exact absurd h0 (by omega)
          · intro v n hm hc hvn hn0
            have hrest0 : keyCount rest k = 0 := by omega
            rcases List.mem_cons.mp hm with hhead | hrest
            · have hv2 : v = v1 := congrArg Prod.snd hhead
              rw [hv2, hv] at hvn
              injection hvn with hn1
              omega
            · exact absurd (keyCount_pos_of_mem hrest) (by omega)
          · intro v hm hc _
            have hrest0 : keyCount rest k = 0 := by omega
            exact (ih acc k).1 hrest0
        · have hload : PersistenceScorer.loadEntries ((PyVal.str k, v1) :: rest) acc
              = PersistenceScorer.loadEntries rest (PyDict.set k n1 acc) := by
            simp [PersistenceScorer.loadEntries, hv, hneg]
          rw [hload, hcount]
          refine ⟨?_, ?_, ?_⟩
          · intro h0
            exact absurd h0 (by omega)
          · intro v n hm hc hvn _
            have hrest0 : keyCount rest k = 0 := by omega
            rcases List.mem_cons.mp hm with hhead | hrest
            · have hv2 : v = v1 := congrArg Prod.snd hhead
              rw [hv2, hv] at hvn
              injection hvn with hn1
              rw [(ih (PyDict.set k n1 acc) k).1 hrest0, PyDict.get?_set_self, hn1]
            · exact absurd (keyCount_pos_of_mem hrest) (by omega)
          · intro v hm hc hbad
            have hrest0 : keyCount rest k = 0 := by omega
            rcases List.mem_cons.mp hm with hhead | hrest
            · have hv2 : v = v1 := congrArg Prod.snd hhead
              rw [hv2, hv] at hbad
              rcases hbad with hnone | ⟨m, hsome, hm0⟩
              · exact absurd hnone (by simp)
              · injection hsome with hm1
                omega
            · exact absurd (keyCount_pos_of_mem hrest) (by omega)
    · have hcount : keyCount ((k1, v1) :: rest) k = keyCount rest k :=
        keyCount_cons_other v1 rest k hk
      have hstep : ∃ acc2, PersistenceScorer.loadEntries ((k1, v1) :: rest) acc
          = PersistenceScorer.loadEntries rest acc2
          ∧ PyDict.get? acc2 k = PyDict.get? acc k := by
        cases k1 with
        | str s =>
          have hs : s ≠ k := fun h => hk (by rw [h])
          cases hv : PyVal.toInt? v1 with
          | none => exact ⟨acc, by simp [PersistenceScorer.loadEntries, hv], rfl⟩
          | some m =>
            by_cases hneg : m < 0
            · exact ⟨acc, by simp [PersistenceScorer.loadEntries, hv, hneg], rfl⟩
            · exact ⟨PyDict.set s m acc,
                by simp [PersistenceScorer.loadEntries, hv, hneg],
                PyDict.get?_set_other s k m hs acc⟩
        | int n =>
          cases hv : PyVal.toInt? v1 with
          | none => exact ⟨acc, by simp [PersistenceScorer.loadEntries, hv], rfl⟩
          | some m => exact ⟨acc, by simp [PersistenceScorer.loadEntries, hv], rfl⟩
        | bool b =>
          cases hv : PyVal.toInt? v1 with
          | none => exact ⟨acc, by simp [PersistenceScorer.loadEntries, hv], rfl⟩
          | some m => exact ⟨acc, by simp [PersistenceScorer.loadEntries, hv], rfl⟩
        | float q =>
          cases hv : PyVal.toInt? v1 with
          | none => exact ⟨acc, by simp [PersistenceScorer.loadEntries, hv], rfl⟩
          | some m => exact ⟨acc, by simp [PersistenceScorer.loadEntries, hv], rfl⟩
        | list xs =>
          cases hv : PyVal.toInt? v1 with
          | none => exact ⟨acc, by simp [PersistenceScorer.loadEntries, hv], rfl⟩
          | some m => exact ⟨acc, by simp [PersistenceScorer.loadEntries, hv], rfl⟩
        | dict es =>
          cases hv : PyVal.toInt? v1 with
          | none => exact ⟨acc, by simp [PersistenceScorer.loadEntries, hv], rfl⟩
          | some m => exact ⟨acc, by simp [PersistenceScorer.loadEntries, hv], rfl⟩
        | tup xs =>
          cases hv : PyVal.toInt? v1 with
          | none => exact ⟨acc, by simp [PersistenceScorer.loadEntries, hv], rfl⟩
          | some m => exact ⟨acc, by simp [PersistenceScorer.loadEntries, hv], rfl⟩
        | none =>
          cases hv : PyVal.toInt? v1 with
          | none => exact ⟨acc, by simp [PersistenceScorer.loadEntries, hv], rfl⟩
          | some m => exact ⟨acc, by simp [PersistenceScorer.loadEntries, hv], rfl⟩
        | res a b c d e f g =>
          cases hv : PyVal.toInt? v1 with
          | none => exact ⟨acc, by simp [PersistenceScorer.loadEntries, hv], rfl⟩
          | some m => exact ⟨acc, by simp [PersistenceScorer.loadEntries, hv], rfl⟩
      obtain ⟨acc2, hstep, hpres⟩ := hstep
      rw [hstep, hcount]
      refine ⟨?_, ?_, ?_⟩
      · intro h0
        rw [(ih acc2 k).1 h0]
        exact hpres
      · intro v n hm hc hvn hn0
        rcases List.mem_cons.mp hm with hhead | hrest
        · exact absurd (congrArg Prod.fst hhead).symm hk
        · exact (ih acc2 k).2.1 v n hrest hc hvn hn0
      · intro v hm hc hbad
        rcases List.mem_cons.mp hm with hhead | hrest
        · exact absurd (congrArg Prod.fst hhead).symm hk
        · rw [(ih acc2 k).2.2 v hrest hc hbad]
          exact hpres

/-- C10: load raises exactly when the data is not a dict or its scores
or last_seen members are not dicts; otherwise it succeeds, loading every
well-formed entry (string key, non-negative int value — booleans being
ints in Python) and silently skipping malformed entries, which leave the
stored value for their key unchanged. -/
theorem c10_load_defensive (sc : PersistenceScorer) (data : PyVal) :
    (PyVal.isDict data = false →
      sc.load data = .error "Persistence data must be dictionary.")
    ∧ (∀ entries, data = .dict entries →
        (((PyVal.dictGet entries (.str "scores") (.dict [])).isDict = false
            ∨ (PyVal.dictGet entries (.str "last_seen") (.dict [])).isDict = false) →
          sc.load data = .error "Invalid persistence structure.")
        ∧ (∀ sEntries lEntries,
            PyVal.dictGet entries (.str "scores") (.dict []) = .dict sEntries →
            PyVal.dictGet entries (.str "last_seen") (.dict []) = .dict lEntries →
            ∃ sc2, sc.load data = .ok sc2
            ∧ (∀ k v n, (PyVal.str k, v) ∈ sEntries → keyCount sEntries k = 1 →
                  PyVal.toInt? v = some n → 0 ≤ n → sc2.score k = n)
            ∧ (∀ k, keyCount sEntries k = 0 → sc2.score k = sc.score k)
            ∧ (∀ k v, (PyVal.str k, v) ∈ sEntries → keyCount sEntries k = 1 →
                  (PyVal.toInt? v = Option.none
                    ∨ ∃ m, PyVal.toInt? v = some m ∧ m < 0) →
                  sc2.score k = sc.score k)
            ∧ (∀ k v n, (PyVal.str k, v) ∈ lEntries → keyCount lEntries k = 1 →
                  PyVal.toInt? v = some n → 0 ≤ n → sc2.last_seen k = n)
            ∧ (∀ k, keyCount lEntries k = 0 →
                  sc2.last_seen k = sc.last_seen k))) := by
  cases data with
  | dict entries0 =>
    refine ⟨?_, ?_⟩
    · intro h
      simp [PyVal.isDict] at h
    · intro entries heq
      injection heq with h
      subst h
      constructor
      · intro hbad
        unfold PersistenceScorer.load
        rcases hbad with hb | hb <;> simp [hb]
      · intro sEntries lEntries hs hl
        refine ⟨{ scores := PersistenceScorer.loadEntries sEntries sc.scores,
                  last_seen_map := PersistenceScorer.loadEntries lEntries sc.last_seen_map },
          ?_, ?_, ?_, ?_, ?_, ?_⟩
        · unfold PersistenceScorer.load
          simp [hs, hl, PyVal.isDict, PyVal.dictEntries]
        · intro k v n hm hc hvn hn0
          unfold PersistenceScorer.score
          rw [(PersistenceScorer.loadEntries_spec sEntries sc.scores k).2.1
            v n hm hc hvn hn0]
          rfl
        · intro k h0
          unfold PersistenceScorer.score
          rw [(PersistenceScorer.loadEntries_spec sEntries sc.scores k).1 h0]
        · intro k v hm hc hbad
          unfold PersistenceScorer.score
          rw [(PersistenceScorer.loadEntries_spec sEntries sc.scores k).2.2
            v hm hc hbad]
        · intro k v n hm hc hvn hn0
          unfold PersistenceScorer.last_seen
          rw [(PersistenceScorer.loadEntries_spec lEntries sc.last_seen_map k).2.1
            v n hm hc hvn hn0]
          rfl
        · intro k h0
          unfold PersistenceScorer.last_seen
          rw [(PersistenceScorer.loadEntries_spec lEntries sc.last_seen_map k).1 h0]
  | str s =>
    refine ⟨fun _ => rfl, ?_⟩
    intro entries heq
    cases heq
  | int n =>
    refine ⟨fun _ => rfl, ?_⟩
    intro entries heq
    cases heq
  | bool b =>
    refine ⟨fun _ => rfl, ?_⟩
    intro entries heq
    cases heq
  | float q =>
    refine ⟨fun _ => rfl, ?_⟩
    intro entries heq
    cases heq
  | list xs =>
    refine ⟨fun _ => rfl, ?_⟩
    intro entries heq
    cases heq
  | tup xs =>
    refine ⟨fun _ => rfl, ?_⟩
    intro entries heq
    cases heq
  | none =>
    refine ⟨fun _ => rfl, ?_⟩
    intro entries heq
    cases heq
  | res a b c d e f g =>
    refine ⟨fun _ => rfl, ?_⟩
    intro entries heq
    cases heq

/-- C10 witness on the mixed snapshot: the restore succeeds, loads the
well-formed entries a (2), c (True, an int valued 1 in Python) and the
last-seen stamp for a, skips the malformed entries (a non-string key, a
negative value) and leaves their keys at the defaults. -/
theorem c10_witness :
    ∃ sc2, PersistenceScorer.init.load loadSnapshot = .ok sc2
      ∧ sc2.score "a" = 2 ∧ sc2.score "c" = 1 ∧ sc2.score "b" = 0
      ∧ sc2.last_seen "a" = 4 ∧ sc2.last_seen "b" = -1 := by
  have h := c10_load_defensive PersistenceScorer.init loadSnapshot
  obtain ⟨sc2, hok, hgood, hzero, hskip, hlgood, hlzero⟩ :=
    ((h.2 _ (by with_unfolding_all rfl)).2
      [(.str "a", .int 2), (.int 7, .int 3), (.str "b", .int (-1)),
       (.str "c", .bool true)]
      [(.str "a", .int 4)]
      (by with_unfolding_all rfl) (by with_unfolding_all rfl))
  refine ⟨sc2, hok, ?_, ?_, ?_, ?_, ?_⟩
  · exact hgood "a" (.int 2) 2 (by simp) (by with_unfolding_all rfl) rfl
      (by norm_num)
  · exact hgood "c" (.bool true) 1 (by simp) (by with_unfolding_all rfl) rfl
      (by norm_num)
  · have := hskip "b" (.int (-1)) (by simp) (by with_unfolding_all rfl)
      (Or.inr ⟨-1, rfl, by norm_num⟩)
    rw [this]
    rfl
  · exact hlgood "a" (.int 4) 4 (by simp) (by with_unfolding_all rfl) rfl
      (by norm_num)
  · have := hlzero "b" (by with_unfolding_all rfl)
    rw [this]
    rfl

/-! ## Claim C9 -/

theorem PyDict.erase_sublist {α : Type} (k : String) :
    ∀ l : List (String × α), (PyDict.erase k l).Sublist l := by
  intro l
  induction l with
  | nil => simp [PyDict.erase]
  | cons kv rest ih =>
    cases kv with
    | mk k0 v0 =>
      by_cases h : k0 = k
      · simp only [PyDict.erase, if_pos h]
        exact (List.Sublist.refl rest).cons _
      · simp only [PyDict.erase, if_neg h]
        exact ih.cons₂ _

theorem MemoryGraph.popOne_sublist (acc : List (String × Node) × List Node)
    (nid : String) : (MemoryGraph.popOne acc nid).1.Sublist acc.1 := by
  unfold MemoryGraph.popOne
  cases PyDict.get? acc.1 nid with
  | none => exact List.Sublist.refl _
  | some node => exact PyDict.erase_sublist nid acc.1

theorem MemoryGraph.popFold_sublist :
    ∀ (l : List String) (acc : List (String × Node) × List Node),
      ((l.foldl MemoryGraph.popOne acc).1).Sublist acc.1 := by
  intro l
  induction l with
  | nil => intro acc; exact List.Sublist.refl _
  | cons nid rest ih =>
    intro acc
    simp only [List.foldl_cons]
    exact (ih (MemoryGraph.popOne acc nid)).trans
      (MemoryGraph.popOne_sublist acc nid)

theorem MemoryGraph.remove_nodes_sublist (g : MemoryGraph) (ids : List String) :
    ((g.remove_nodes ids).1.nodes).Sublist g.nodes :=
  MemoryGraph.popFold_sublist ids (g.nodes, [])

theorem MemoryGraph.remove_nodes_turn (g : MemoryGraph) (ids : List String) :
    (g.remove_nodes ids).1.turn = g.turn := rfl

theorem MemoryGraph.remove_nodes_next_id (g : MemoryGraph) (ids : List String) :
    (g.remove_nodes ids).1.next_id = g.next_id := rfl

theorem MemoryForgetting.prune_nodes_sublist (sqrtFn : ℚ → ℚ) (g : MemoryGraph)
    (sc : PersistenceScorer) (th : ℚ) :
    ((MemoryForgetting.prune sqrtFn g sc th).1.nodes).Sublist g.nodes := by
  unfold MemoryForgetting.prune
  split
  · exact List.Sublist.refl _
  · exact MemoryGraph.remove_nodes_sublist g _

theorem MemoryForgetting.prune_turn (sqrtFn : ℚ → ℚ) (g : MemoryGraph)
    (sc : PersistenceScorer) (th : ℚ) :
    (MemoryForgetting.prune sqrtFn g sc th).1.turn = g.turn := by
  unfold MemoryForgetting.prune
  split
  · rfl
  · rfl

theorem MemoryForgetting.prune_next_id (sqrtFn : ℚ → ℚ) (g : MemoryGraph)
    (sc : PersistenceScorer) (th : ℚ) :
    (MemoryForgetting.prune sqrtFn g sc th).1.next_id = g.next_id := by
  unfold MemoryForgetting.prune
  split
  · rfl
  · rfl

theorem PersistenceScorer.register_none_last_seen (sc : PersistenceScorer)
    (id : String) :
    (sc.register_occurrence id Option.none).last_seen_map = sc.last_seen_map := rfl

theorem PyDict.get?_of_mem_nodup {α : Type} {k : String} {v : α} :
    ∀ {l : List (String × α)}, (l.map Prod.fst).Nodup → (k, v) ∈ l →
      PyDict.get? l k = some v := by
  intro l
  induction l with
  | nil => simp
  | cons kv rest ih =>
    cases kv with
    | mk k0 v0 =>
      intro hnd hm
      rcases List.mem_cons.mp hm with hhead | hrest
      · cases hhead
        simp [PyDict.get?]
      · have hk0 : k0 ≠ k := by
          intro h
          subst h
          have : k0 ∈ rest.map Prod.fst :=
            List.mem_map.mpr ⟨(k0, v), hrest, rfl⟩
          simp only [List.map_cons, List.nodup_cons] at hnd
          exact hnd.1 this
        simp only [PyDict.get?, if_neg hk0]
        have : (rest.map Prod.fst).Nodup := by
          simp only [List.map_cons, List.nodup_cons] at hnd
          exact hnd.2
        exact ih this hrest

/-- UpdaterOnly is preserved by one memory operation. -/
theorem updaterOnly_applyMemOp (sqrtFn : ℚ → ℚ) (s : MemorySystem) (op : MemOp)
    (h : UpdaterOnly s) : UpdaterOnly (applyMemOp sqrtFn s op) := by
  obtain ⟨hls, hkeys, hnd⟩ := h
  cases op with
  | newTurn => exact ⟨hls, hkeys, hnd⟩
  | observe obs =>
    simp only [applyMemOp, MemoryUpdater.update_from_observation]
    have step :
        ∀ (g1 : MemoryGraph) (node_id : String),
          (∀ kn ∈ g1.nodes, ∃ j, j < g1.next_id ∧ kn.1 = MemoryGraph.mkId j) →
          ((g1.nodes.map Prod.fst).Nodup) →
          UpdaterOnly
            (if g1.current_turn % MemoryUpdater.PRUNE_INTERVAL = 0 then
              (MemoryUpdater.pruneCycle sqrtFn
                { graph := g1,
                  scorer := s.scorer.register_occurrence node_id Option.none }
                MemoryUpdater.PRUNE_THRESHOLD).1
            else
              { graph := g1,
                scorer := s.scorer.register_occurrence node_id Option.none }) := by
      intro g1 node_id hkeys1 hnd1
      by_cases hturn : g1.current_turn % MemoryUpdater.PRUNE_INTERVAL = 0
      · rw [if_pos hturn]
        refine ⟨?_, ?_, ?_⟩
        · simpa [MemoryUpdater.pruneCycle,
            PersistenceScorer.register_none_last_seen] using hls
        · intro kn hkn
          have hsub := MemoryForgetting.prune_nodes_sublist sqrtFn g1
            (s.scorer.register_occurrence node_id Option.none)
            MemoryUpdater.PRUNE_THRESHOLD
          have hmem : kn ∈ g1.nodes := hsub.subset hkn
          obtain ⟨j, hj, hjk⟩ := hkeys1 kn hmem
          refine ⟨j, ?_, hjk⟩
          simpa [MemoryUpdater.pruneCycle, MemoryForgetting.prune_next_id] using hj
        · have hsub := MemoryForgetting.prune_nodes_sublist sqrtFn g1
            (s.scorer.register_occurrence node_id Option.none)
            MemoryUpdater.PRUNE_THRESHOLD
          exact (hsub.map Prod.fst).nodup hnd1
      · rw [if_neg hturn]
        exact ⟨by simpa [PersistenceScorer.register_none_last_seen] using hls,
          hkeys1, hnd1⟩
    cases hex : MemoryDeduplicator.find_existing s.graph obs.type obs.payload with
    | some nid =>
      simpa [hex] using step s.graph nid hkeys hnd
    | none =>
      simp only [hex]
      refine step _ _ ?_ ?_
      · intro kn hkn
        simp only [MemoryGraph.add_node, List.mem_append, List.mem_singleton] at hkn
        rcases hkn with hold | hnew
        · obtain ⟨j, hj, hjk⟩ := hkeys kn hold
          exact ⟨j, Nat.lt_succ_of_lt hj, hjk⟩
        · subst hnew
          exact ⟨s.graph.next_id, Nat.lt_succ_self _, rfl⟩
      · simp only [MemoryGraph.add_node, List.map_append, List.map_cons,
          List.map_nil]
        rw [List.nodup_append]
        refine ⟨hnd, List.nodup_singleton _, ?_⟩
        intro a ha hb
        simp only [List.mem_singleton] at hb
        subst hb
        obtain ⟨kn, hkn, hk⟩ := List.mem_map.mp ha
        obtain ⟨j, hj, hjk⟩ := hkeys kn hkn
        have := MemoryGraph.mkId_inj (hk.symm.trans hjk)
        omega

/-- UpdaterOnly is preserved along any operation sequence. -/
theorem updaterOnly_foldl (sqrtFn : ℚ → ℚ) :
    ∀ (ops : List MemOp) (s : MemorySystem), UpdaterOnly s →
      UpdaterOnly (ops.foldl (applyMemOp sqrtFn) s)
  | [], _, hs => hs
  | op :: rest, s, hs =>
    updaterOnly_foldl sqrtFn rest _ (updaterOnly_applyMemOp sqrtFn s op hs)

/-- UpdaterOnly holds of every system reachable from the fresh one. -/
theorem updaterOnly_runMemOps (sqrtFn : ℚ → ℚ) (ops : List MemOp) :
    UpdaterOnly (runMemOps sqrtFn ops) := by
  have hinit : UpdaterOnly initMemorySystem := by
    refine ⟨rfl, ?_, ?_⟩ <;> simp [initMemorySystem, MemoryGraph.init]
  exact updaterOnly_foldl sqrtFn ops initMemorySystem hinit

/-- C9: through update_from_observation reinforcement alone, last_seen is
never stamped: every id reads -1 regardless of reinforcement count, and
for every node in the graph compute_importance takes the
current_turn - turn_created fallback for the age — last-seen recency is
never used. -/
theorem c9_last_seen_never_stamped (sqrtFn : ℚ → ℚ) (ops : List MemOp) :
    (∀ id, (runMemOps sqrtFn ops).scorer.last_seen id = -1)
    ∧ (∀ kn ∈ (runMemOps sqrtFn ops).graph.nodes,
        MemoryDecay.compute_importance sqrtFn (runMemOps sqrtFn ops).graph
            (runMemOps sqrtFn ops).scorer kn.1
          = some (sqrtFn (((runMemOps sqrtFn ops).scorer.score kn.1 : ℚ))
              - (((runMemOps sqrtFn ops).graph.turn - kn.2.turn_created : Int) : ℚ)
                * (15 / 100))) := by
  obtain ⟨hls, hkeys, hnd⟩ := updaterOnly_runMemOps sqrtFn ops
  have hlast : ∀ id, (runMemOps sqrtFn ops).scorer.last_seen id = -1 := by
    intro id
    unfold PersistenceScorer.last_seen
    rw [hls]
    rfl
  refine ⟨hlast, ?_⟩
  intro kn hkn
  have hid : (runMemOps sqrtFn ops).graph.get_node? kn.1 = some kn.2 := by
    have hwf : (kn.1, kn.2) ∈ (runMemOps sqrtFn ops).graph.nodes := by
      simpa using hkn
    exact PyDict.get?_of_mem_nodup hnd hwf
  unfold MemoryDecay.compute_importance
  rw [hid, hlast kn.1]
  norm_num [MemoryGraph.current_turn]

/-- C9 witness: after advancing one turn and ingesting one Einstein
observation, the created node reads last_seen -1 and its importance is
the fallback-age formula. -/
theorem c9_witness :
    (runMemOps sqrtId [.newTurn, .observe (entityObservation "Einstein")]).scorer.last_seen
        (MemoryGraph.mkId 0) = -1
    ∧ MemoryDecay.compute_importance sqrtId
        (runMemOps sqrtId [.newTurn, .observe (entityObservation "Einstein")]).graph
        (runMemOps sqrtId [.newTurn, .observe (entityObservation "Einstein")]).scorer
        (MemoryGraph.mkId 0)
      = some (sqrtId 1 - 0 * (15 / 100)) := by
  have h := c9_last_seen_never_stamped sqrtId
    [.newTurn, .observe (entityObservation "Einstein")]
  constructor
  · exact h.1 (MemoryGraph.mkId 0)
  · have hm :
        (MemoryGraph.mkId 0,
          ({ id := MemoryGraph.mkId 0, type := "entity",
             value := .str "Einstein", turn_created := 1 } : Node))
          ∈ (runMemOps sqrtId [.newTurn, .observe (entityObservation "Einstein")]).graph.nodes := by
      have hnodes :
          (runMemOps sqrtId [.newTurn, .observe (entityObservation "Einstein")]).graph.nodes
            = [(MemoryGraph.mkId 0,
                { id := MemoryGraph.mkId 0, type := "entity",
                  value := .str "Einstein", turn_created := 1 })] := by
        with_unfolding_all rfl
      rw [hnodes]
      exact List.mem_singleton_self _
    have h2 := h.2 _ hm
    rw [h2]
    with_unfolding_all rfl

/-! ## Claim C8 -/

/-- GraphZero is preserved by one observation ingestion. -/
theorem graphZero_update (sqrtFn : ℚ → ℚ) (s : MemorySystem) (obs : Observation)
    (h : GraphZero s) : GraphZero (MemoryUpdater.update_from_observation sqrtFn s obs) := by
  obtain ⟨hturn, hnodes⟩ := h
  simp only [MemoryUpdater.update_from_observation]
  have step :
      ∀ (g1 : MemoryGraph) (node_id : String),
        g1.turn = 0 →
        (∀ kn ∈ g1.nodes, kn.2.turn_created = 0) →
        GraphZero
          (if g1.current_turn % MemoryUpdater.PRUNE_INTERVAL = 0 then
            (MemoryUpdater.pruneCycle sqrtFn
              { graph := g1,
                scorer := s.scorer.register_occurrence node_id Option.none }
              MemoryUpdater.PRUNE_THRESHOLD).1
          else
            { graph := g1,
              scorer := s.scorer.register_occurrence node_id Option.none }) := by
    intro g1 node_id hturn1 hnodes1
    by_cases hmod : g1.current_turn % MemoryUpdater.PRUNE_INTERVAL = 0
    · rw [if_pos hmod]
      constructor
      · simpa [MemoryUpdater.pruneCycle, MemoryForgetting.prune_turn] using hturn1
      · intro kn hkn
        have hsub := MemoryForgetting.prune_nodes_sublist sqrtFn g1
          (s.scorer.register_occurrence node_id Option.none)
          MemoryUpdater.PRUNE_THRESHOLD
        exact hnodes1 kn (hsub.subset hkn)
    · rw [if_neg hmod]
      exact ⟨hturn1, hnodes1⟩
  cases hex : MemoryDeduplicator.find_existing s.graph obs.type obs.payload with
  | some nid => simpa [hex] using step s.graph nid hturn hnodes
  | none =>
    simp only [hex]
    refine step _ _ ?_ ?_
    · exact hturn
    · intro kn hkn
      simp only [MemoryGraph.add_node, List.mem_append, List.mem_singleton] at hkn
      rcases hkn with hold | hnew
      · exact hnodes kn hold
      · subst hnew
        exact hturn

/-- GraphZero is preserved along any observation list. -/
theorem graphZero_foldl_obs (sqrtFn : ℚ → ℚ) :
    ∀ (l : List Observation) (s : MemorySystem), GraphZero s →
      GraphZero (l.foldl (MemoryUpdater.update_from_observation sqrtFn) s)
  | [], _, hs => hs
  | obs :: rest, s, hs =>
    graphZero_foldl_obs sqrtFn rest _ (graphZero_update sqrtFn s obs hs)

/-- GraphZero is preserved by the execution loop. -/
theorem graphZero_execLoop (env : AgentEnv) :
    ∀ (steps : List PlanStep) (acc : Agent.ExecAcc) (prev : Option ToolResult),
      GraphZero acc.sys → GraphZero (Agent.execLoop env acc prev steps).2.sys := by
  intro steps
  induction steps with
  | nil =>
    intro acc prev h
    simpa [Agent.execLoop] using h
  | cons step rest ih =>
    intro acc prev h
    simp only [Agent.execLoop]
    have hstep : GraphZero (Agent.execute_step env acc step.action.tool_name
        (Agent.chainArgs prev step.action.arguments)).2.sys :=
      graphZero_update env.sqrtFn acc.sys _ h
    by_cases hc :
        (Agent.execute_step env acc step.action.tool_name
          (Agent.chainArgs prev step.action.arguments)).1.status ≠ "success"
    · rw [if_pos hc]
      exact hstep
    · rw [if_neg hc]
      exact ih _ _ hstep

/-- GraphZero is preserved by semantic encoding. -/
theorem graphZero_semantic (env : AgentEnv) (sys : MemorySystem)
    (res : Option ToolResult) (h : GraphZero sys) :
    GraphZero (Agent.handle_semantic_encoding env sys res) := by
  cases res with
  | none => exact h
  | some r =>
    simp only [Agent.handle_semantic_encoding]
    split
    · split
      · exact graphZero_foldl_obs env.sqrtFn _ sys h
      · exact h
    · exact h

/-- GraphZero is preserved by one handle_query call. -/
theorem graphZero_handle_query (env : AgentEnv) (a : Agent) (q : String)
    (h : GraphZero a.sys) : GraphZero (Agent.handle_query env a q).agent.sys := by
  simp only [Agent.handle_query]
  split
  · exact graphZero_update env.sqrtFn a.sys _ h
  · exact graphZero_semantic env _ _
      (graphZero_execLoop env _ _ _ (graphZero_update env.sqrtFn a.sys _ h))

/-- GraphZero holds of every agent state reachable by queries from a
fresh Agent. -/
theorem graphZero_runQueries (env : AgentEnv) :
    ∀ (qs : List String) (a : Agent), GraphZero a.sys →
      GraphZero (Agent.runQueries env a qs).sys
  | [], _, h => h
  | q :: rest, a, h =>
    graphZero_runQueries env rest _ (graphZero_handle_query env a q h)

/-- At turn zero with all nodes created at turn zero, every entity node
is younger than the minimum turn age, so the analyzer returns nothing. -/
theorem persistentCore_empty_of_zero (g : MemoryGraph) (hturn : g.turn = 0)
    (hnodes : ∀ kn ∈ g.nodes, kn.2.turn_created = 0) :
    PersistenceAnalyzer.persistentEntitiesCore 2 1 g = [] := by
  have hvals : PersistenceAnalyzer.entityValues 1 g = [] := by
    refine List.filterMap_eq_nil_iff.mpr ?_
    intro node hnode
    have hex : ∃ kn ∈ g.nodes, kn.2 = node := by
      simp only [MemoryGraph.get_nodes_by_type, List.mem_filter,
        List.mem_map] at hnode
      obtain ⟨⟨kn, hkn, hk⟩, _⟩ := hnode
      exact ⟨kn, hkn, hk⟩
    obtain ⟨kn, hkn, rfl⟩ := hex
    have htc := hnodes kn hkn
    cases hv : kn.2.value with
    | none => simp [hv]
    | str sv =>
      simp only [hv]
      split
      · rfl
      · rw [if_pos]
        simp [MemoryGraph.current_turn, hturn, htc]
    | int n =>
      simp only [hv]
      split
      · rfl
      · rw [if_pos]
        simp [MemoryGraph.current_turn, hturn, htc]
    | bool b =>
      simp only [hv]
      split
      · rfl
      · rw [if_pos]
        simp [MemoryGraph.current_turn, hturn, htc]
    | float q =>
      simp only [hv]
      split
      · rfl
      · rw [if_pos]
        simp [MemoryGraph.current_turn, hturn, htc]
    | list xs =>
      simp only [hv]
      split
      · rfl
      · rw [if_pos]
        simp [MemoryGraph.current_turn, hturn, htc]
    | dict es =>
      simp only [hv]
      split
      · rfl
      · rw [if_pos]
        simp [MemoryGraph.current_turn, hturn, htc]
    | tup xs =>
      simp only [hv]
      split
      · rfl
      · rw [if_pos]
        simp [MemoryGraph.current_turn, hturn, htc]
    | res a b c d e f gg =>
      simp only [hv]
      split
      · rfl
      · rw [if_pos]
        simp [MemoryGraph.current_turn, hturn, htc]
  unfold PersistenceAnalyzer.persistentEntitiesCore
  rw [hvals]
  rfl

/-- The signals of a turn are extracted from the memory right after the
user observation was ingested, whatever the planner then answers. -/
theorem Agent.handle_query_signals (env : AgentEnv) (a : Agent) (q : String) :
    (Agent.handle_query env a q).signals
      = StabilitySignals.extract
          (MemoryUpdater.update_from_observation env.sqrtFn a.sys
            { source := "user", type := "entity", payload := .str q }).graph := by
  simp only [Agent.handle_query]
  split
  · rfl
  · rfl

/-- C8: handle_query never advances the memory graph's turn counter (it
advances only the AgentState session counter), so over any sequence of
handle_query calls from a fresh Agent the graph turn stays 0, every
node's turn age is 0, and the stable_entities list in the signals handed
to the planner is empty on every turn, for every planner and executor. -/
theorem c8_stable_entities_always_empty (env : AgentEnv) (qs : List String)
    (q : String) :
    (Agent.runQueries env Agent.init qs).sys.graph.turn = 0
    ∧ (∀ kn ∈ (Agent.runQueries env Agent.init qs).sys.graph.nodes,
        (Agent.runQueries env Agent.init qs).sys.graph.turn - kn.2.turn_created = 0)
    ∧ (Agent.handle_query env (Agent.runQueries env Agent.init qs) q).signals.stable_entities
        = [] := by
  have hzero : GraphZero (Agent.runQueries env Agent.init qs).sys := by
    refine graphZero_runQueries env qs Agent.init ⟨rfl, ?_⟩
    intro kn hkn
    simp [Agent.init, initMemorySystem, MemoryGraph.init] at hkn
  refine ⟨hzero.1, ?_, ?_⟩
  · intro kn hkn
    rw [hzero.1, hzero.2 kn hkn]
    rfl
  · rw [Agent.handle_query_signals]
    have hz1 : GraphZero (MemoryUpdater.update_from_observation env.sqrtFn
        (Agent.runQueries env Agent.init qs).sys
        { source := "user", type := "entity", payload := .str q }) :=
      graphZero_update env.sqrtFn _ _ hzero
    simp only [StabilitySignals.extract]
    exact persistentCore_empty_of_zero _ hz1.1 hz1.2

/-- C8 witness: after one query against the stub environment, the graph
turn is 0 and the next turn's planner receives no stable entities. -/
theorem c8_witness :
    (Agent.runQueries envTwoStepOk Agent.init ["hi"]).sys.graph.turn = 0
    ∧ (Agent.handle_query envTwoStepOk
        (Agent.runQueries envTwoStepOk Agent.init ["hi"]) "again").signals.stable_entities
      = [] := by
  have h := c8_stable_entities_always_empty envTwoStepOk ["hi"] "again"
  exact ⟨h.1, h.2.2⟩
